import Mathlib

/-!
Todaily: persistence and record derivation.

A shallow embedding of the storage layer of Todaily (`store.go`), of the
habit model and template merge (`main.go`), of the saving of the record on
display (`home.go`) and of the adding of a habit (`habits.go`), followed by
theorems about them.

Modelling conventions.

* A Go `time.Time` is represented by its instant, in nanoseconds since the
  zero Time (January 1, year 1, 00:00:00 UTC).  `IsZero`, `Before` and `After`
  only look at the instant; the monotonic reading and the location pointer
  are not represented.
* A Go slice is a `List`; the nil slice and the empty slice are both `[]`.
* A Go `string` is a sequence of bytes.  It is represented by the sequence of
  units that decoding it as UTF-8 yields: code points, and bytes that are not
  part of a valid encoding (`GoString`).  `json.Marshal` writes each such
  byte as U+FFFD, so a JSON string literal always holds valid text.
* A Go `error` is an `Option String` (`none` is the nil error), or the
  `Except.error` side of a result.
* Values held by Bolt are JSON texts; they are represented by their syntax
  tree `Json`.  `json.Marshal` and `json.Unmarshal` are modelled for the two
  types the program stores, with the failure cases of the Go library:
  a NaN or infinite float and a time whose year is outside 0..9999 cannot be
  encoded, and a value of the wrong JSON kind cannot be decoded.
* A Bolt bucket is an association list kept in key order; a transaction
  whose closure returns an error is rolled back, so the store is unchanged.
  A failure of Bolt itself when it commits (a failed write to the file) is
  an argument of `saveCurrentRecord`, the one function for which a claim is
  about a failed write; the store functions are modelled on a database that
  commits.
-/

namespace Todaily

/-! ## Time -/

/-- Instant of a Go `time.Time`: nanoseconds since the zero Time. -/
structure Time where
  ns : Int
deriving DecidableEq, Repr

namespace Time

/-- The zero value of `time.Time`. -/
def zero : Time := ⟨0⟩

/-- Go `Time.IsZero`. -/
def IsZero (t : Time) : Bool := decide (t.ns = 0)

/-- Go `Time.Before`. -/
def Before (t u : Time) : Bool := decide (t.ns < u.ns)

/-- Go `Time.After`. -/
def After (t u : Time) : Bool := decide (u.ns < t.ns)

/-- Nanoseconds in a day. -/
def nsPerDay : Int := 86400 * 1000000000

/-- Whether `Time.MarshalJSON` accepts the instant: its year (read in UTC) lies
in 0..9999.  Year 0 begins 366 days before the zero Time and year 10000
begins 3652059 days after it. -/
def jsonYearOk (t : Time) : Bool :=
  decide (-366 * nsPerDay ≤ t.ns) && decide (t.ns < 3652059 * nsPerDay)

end Time

/-! ### Parsing a date key

`getHabitsForDay` parses its date key with the layout `060102` in the
location of `time.Now()`.  The store functions below take the parser as an
argument; `parseInLocationUTC` is the parser for the location UTC. -/

/-- Value of an ASCII decimal digit. -/
def digitVal (c : Char) : Option Nat :=
  if c.isDigit then some (c.toNat - 48) else none

/-- Leap years of the proleptic Gregorian calendar. -/
def isLeap (year : Int) : Bool :=
  decide (year % 4 = 0) && (decide (year % 100 ≠ 0) || decide (year % 400 = 0))

/-- Number of days of a month. -/
def daysIn (year : Int) (month : Nat) : Nat :=
  match month with
  | 2 => if isLeap year then 29 else 28
  | 4 => 30
  | 6 => 30
  | 9 => 30
  | 11 => 30
  | _ => 31

/-- Days of `year` that precede its month `month`. -/
def daysBefore (year : Int) (month : Nat) : Nat :=
  ((List.range (month - 1)).map (fun i => daysIn year (i + 1))).sum

/-- Days from January 1 of year 1 to January 1 of `year`. -/
def daysSinceZero (year : Int) : Int :=
  365 * (year - 1) + (year - 1) / 4 - (year - 1) / 100 + (year - 1) / 400

/-- The two characters read for the layout element `06`, as Go `atoi` reads
them: two digits, or a sign followed by one digit. -/
def yearVal (a b : Char) : Option Int :=
  match digitVal b with
  | none => none
  | some d0 =>
    if a = '+' then some (d0 : Int)
    else if a = '-' then some (-(d0 : Int))
    else
      match digitVal a with
      | none => none
      | some d1 => some (10 * (d1 : Int) + (d0 : Int))

/-- Go `time.ParseInLocation("060102", value, time.UTC)`: two characters for
the year, read as 1969..2068 when they are digits, two digits for the month
and two for the day, and midnight of that day as the result. -/
def parseInLocationUTC (value : String) : Except String Time :=
  match value.data with
  | [y1, y0, m1, m0, d1, d0] =>
    match yearVal y1 y0, digitVal m1, digitVal m0, digitVal d1, digitVal d0 with
    | some yy, some m1, some m0, some d1, some d0 =>
      let year : Int := if 69 ≤ yy then 1900 + yy else 2000 + yy
      let month := 10 * m1 + m0
      let day := 10 * d1 + d0
      if month < 1 ∨ 12 < month then .error "month out of range"
      else if day < 1 ∨ daysIn year month < day then .error "day out of range"
      else .ok ⟨(daysSinceZero year + (daysBefore year month : Int) + ((day : Int) - 1)) * Time.nsPerDay⟩
    | _, _, _, _, _ => .error "cannot parse as 060102"
  | _ => .error "cannot parse as 060102"

/-! ## Go strings -/

/-- One step of decoding a Go string as UTF-8: a code point, or a byte that
is not part of a valid encoding. -/
inductive GoRune where
  | rune (c : Char)
  | invalid (b : UInt8)
deriving DecidableEq, Repr

/-- A Go `string`, as the units its bytes decode to. -/
structure GoString where
  runes : List GoRune
deriving DecidableEq, Repr

/-- The Go string holding the UTF-8 encoding of a text. -/
def GoString.ofString (s : String) : GoString := ⟨s.data.map GoRune.rune⟩

/-- A text is read as the Go string holding it. -/
instance : Coe String GoString := ⟨GoString.ofString⟩

/-- The code point `json.Marshal` writes for a unit of a Go string: U+FFFD
for an invalid byte. -/
def GoRune.toValid (r : GoRune) : Char :=
  match r with
  | .rune c => c
  | .invalid _ => Char.ofNat 65533

/-- The text `json.Marshal` writes for a Go string: invalid bytes are
replaced by U+FFFD. -/
def GoString.toValid (g : GoString) : String := ⟨g.runes.map GoRune.toValid⟩

/-- Go `utf8.ValidString`. -/
def GoString.Valid (g : GoString) : Prop := ∀ r ∈ g.runes, ∃ c, r = GoRune.rune c

/-! ## Habits and summaries (`main.go`) -/

/-- The Go struct `habit`. -/
structure habit where
  ID : Int
  CreatedAt : Time
  CompletedAt : Time
  DeletedAt : Time
  Content : GoString
deriving DecidableEq, Repr

/-- Go `(*habit).isDone`. -/
def habit.isDone (h : habit) : Bool := !h.CompletedAt.IsZero

/-- Go `(*habit).isDeleted`. -/
def habit.isDeleted (h : habit) : Bool := !h.DeletedAt.IsZero

/-- The zero value of `habit`. -/
def habit.zero : habit := ⟨0, Time.zero, Time.zero, Time.zero, ""⟩

/-- A Go `float32`.  `val q` stands for the float32 nearest to the rational `q`;
rounding is a function of `q`, so equal models denote equal floats. -/
inductive F32 where
  | nan
  | inf
  | val (q : ℚ)
deriving DecidableEq

/-- The Go expression `float32(a) / float32(b)` for integers `a` and `b`. -/
def f32div (a b : Int) : F32 :=
  if b = 0 then (if a = 0 then F32.nan else F32.inf) else F32.val ((a : ℚ) / (b : ℚ))

/-- The Go struct `dailySummary`. -/
structure dailySummary where
  NumCompl : Int
  PctCompl : F32
deriving DecidableEq

/-- The zero value of `dailySummary`. -/
def dailySummary.zero : dailySummary := ⟨0, F32.val 0⟩

/-- Go `newSummaryOfList`: the loop counts the done habits, then the count is
divided by the length of the list in float32. -/
def newSummaryOfList (list : List habit) : dailySummary :=
  let numCompl := list.foldl (fun (n : Int) h => if h.isDone then n + 1 else n) 0
  { NumCompl := numCompl, PctCompl := f32div numCompl (list.length : Int) }

/-! ## JSON -/

/-- Syntax tree of a JSON text.  `time t` is the string literal holding the
RFC 3339 text of the instant `t`; `str s` is any other string literal. -/
inductive Json where
  | null
  | bool (b : Bool)
  | num (q : ℚ)
  | str (s : String)
  | time (t : Time)
  | arr (elems : List Json)
  | obj (fields : List (String × Json))

/-- The two directions of `encoding/json` for a Go type.  `unmarshal data v`
decodes `data` into the variable currently holding `v`. -/
class JsonCodec (α : Type) where
  marshal : α → Except String Json
  unmarshal : Json → α → Except String α

/-- Encoding of a `time.Time` field: `Time.MarshalJSON` rejects a year outside
0..9999.  The struct tag `omitempty` has no effect on a struct-typed field, so
a zero time is written out like any other. -/
def marshalTime (t : Time) : Except String Json :=
  if t.jsonYearOk then .ok (Json.time t) else .error "Time.MarshalJSON: year outside of range [0,9999]"

/-- Decoding into a `time.Time` field. -/
def unmarshalTime (data : Json) (v : Time) : Except String Time :=
  match data with
  | .null => .ok v
  | .time t => if t.jsonYearOk then .ok t else .error "parsing time: out of range"
  | _ => .error "cannot unmarshal into Go value of type time.Time"

/-- Decoding into an `int` field: the number must be an integer.  A number is
represented by its value, so the literal `2.0`, which Go refuses for an
`int`, is not told apart from `2`.  Go `int` is modelled by `Int`: the bound
of 64 bits is not checked, and the program does no arithmetic that could
overflow it. -/
def unmarshalInt (data : Json) (v : Int) : Except String Int :=
  match data with
  | .null => .ok v
  | .num q => if q.den = 1 then .ok q.num else .error "cannot unmarshal number into Go value of type int"
  | _ => .error "cannot unmarshal into Go value of type int"

/-- Decoding into a `string` field: the text of the literal, which is valid
UTF-8.  Time literals are kept apart from other string literals in `Json`,
and only the latter are accepted here. -/
def unmarshalString (data : Json) (v : GoString) : Except String GoString :=
  match data with
  | .null => .ok v
  | .str s => .ok (GoString.ofString s)
  | _ => .error "cannot unmarshal into Go value of type string"

/-- Decoding into a `float32` field.  A number beyond the range of `float32`,
which Go refuses, is not told apart from the others. -/
def unmarshalF32 (data : Json) (v : F32) : Except String F32 :=
  match data with
  | .null => .ok v
  | .num q => .ok (F32.val q)
  | _ => .error "cannot unmarshal into Go value of type float32"

/-- Encoding of a `float32` field: NaN and the infinities are unsupported
values. -/
def marshalF32 (f : F32) : Except String Json :=
  match f with
  | .val q => .ok (Json.num q)
  | .nan => .error "json: unsupported value: NaN"
  | .inf => .error "json: unsupported value: +Inf"

/-- ASCII lower-casing of a key; object keys are matched to struct fields
without regard to case. -/
def foldKey (k : String) : String := ⟨k.data.map Char.toLower⟩

/-- `json.Marshal` of one `habit`, following its struct tags: `cont` is left
out for the empty string, and invalid UTF-8 in it is written as U+FFFD. -/
def marshalHabit (h : habit) : Except String Json := do
  let created ← marshalTime h.CreatedAt
  let compl ← marshalTime h.CompletedAt
  let del ← marshalTime h.DeletedAt
  let cont := if h.Content.runes = [] then [] else [("cont", Json.str h.Content.toValid)]
  pure (Json.obj ([("id", Json.num (h.ID : ℚ)), ("created", created), ("compl", compl), ("del", del)] ++ cont))

/-- Decoding of one object member into the matching field of a `habit`;
members with an unknown key are skipped. -/
def setHabitField (h : habit) (kv : String × Json) : Except String habit :=
  let k := foldKey kv.1
  if k = "id" then do
    let n ← unmarshalInt kv.2 h.ID
    pure { h with ID := n }
  else if k = "created" then do
    let t ← unmarshalTime kv.2 h.CreatedAt
    pure { h with CreatedAt := t }
  else if k = "compl" then do
    let t ← unmarshalTime kv.2 h.CompletedAt
    pure { h with CompletedAt := t }
  else if k = "del" then do
    let t ← unmarshalTime kv.2 h.DeletedAt
    pure { h with DeletedAt := t }
  else if k = "cont" then do
    let c ← unmarshalString kv.2 h.Content
    pure { h with Content := c }
  else pure h

/-- `json.Unmarshal` into one `habit`. -/
def unmarshalHabit (data : Json) (v : habit) : Except String habit :=
  match data with
  | .null => .ok v
  | .obj fields => fields.foldlM setHabitField v
  | _ => .error "cannot unmarshal into Go value of type main.habit"

/-- Encoding of the elements of a `[]habit`, in order; the first element
that cannot be encoded fails the whole encoding. -/
def marshalHabits : List habit → Except String (List Json)
  | [] => .ok []
  | h :: rest =>
    match marshalHabit h with
    | .error e => .error e
    | .ok j =>
      match marshalHabits rest with
      | .error e => .error e
      | .ok js => .ok (j :: js)

/-- Decoding of the elements of a JSON array into a `[]habit`: every element
is decoded into a zero `habit`. -/
def unmarshalHabits : List Json → Except String (List habit)
  | [] => .ok []
  | j :: rest =>
    match unmarshalHabit j habit.zero with
    | .error e => .error e
    | .ok h =>
      match unmarshalHabits rest with
      | .error e => .error e
      | .ok hs => .ok (h :: hs)

/-- The codec of `[]habit`.  The nil slice is written as `null`, and `null`
decodes to the nil slice. -/
instance : JsonCodec (List habit) where
  marshal items :=
    match items with
    | [] => .ok Json.null
    | _ =>
      match marshalHabits items with
      | .error e => .error e
      | .ok elems => .ok (Json.arr elems)
  unmarshal data _ :=
    match data with
    | .null => .ok []
    | .arr elems => unmarshalHabits elems
    | _ => .error "cannot unmarshal into Go value of type []main.habit"

/-- Decoding of one object member into the matching field of a
`dailySummary`. -/
def setSummaryField (d : dailySummary) (kv : String × Json) : Except String dailySummary :=
  let k := foldKey kv.1
  if k = "n" then do
    let n ← unmarshalInt kv.2 d.NumCompl
    pure { d with NumCompl := n }
  else if k = "p" then do
    let p ← unmarshalF32 kv.2 d.PctCompl
    pure { d with PctCompl := p }
  else pure d

/-- The codec of `dailySummary`. -/
instance : JsonCodec dailySummary where
  marshal d := do
    let p ← marshalF32 d.PctCompl
    pure (Json.obj [("n", Json.num (d.NumCompl : ℚ)), ("p", p)])
  unmarshal data v :=
    match data with
    | .null => .ok v
    | .obj fields => fields.foldlM setSummaryField v
    | _ => .error "cannot unmarshal into Go value of type main.dailySummary"

/-! ## Bolt buckets -/

/-- A Bolt bucket: its key/value pairs in key order. -/
abbrev Bucket := List (String × Json)

/-- Bolt `Bucket.Get`: the value stored under `key`, `none` standing for the
nil slice returned when the key is absent. -/
def Bucket.Get (b : Bucket) (key : String) : Option Json :=
  match b with
  | [] => none
  | (k, v) :: rest => if k = key then some v else Bucket.Get rest key

/-- Insertion of a pair at its place in key order, replacing the value of a
key already present. -/
def Bucket.insert (b : Bucket) (key : String) (value : Json) : Bucket :=
  match b with
  | [] => [(key, value)]
  | (k, v) :: rest =>
    if k = key then (key, value) :: rest
    else if key < k then (key, value) :: (k, v) :: rest
    else (k, v) :: Bucket.insert rest key value

/-- Bolt `Bucket.Put`: an empty key is refused (`ErrKeyRequired`).  The
limits of Bolt on the size of a key and of a value are not modelled. -/
def Bucket.Put (b : Bucket) (key : String) (value : Json) : Except String Bucket :=
  if key = "" then .error "key required" else .ok (b.insert key value)

/-- Bolt `Bucket.ForEach`: calls `fn` on every pair in key order and stops at
the first error, which it returns.  `fn` acts on the variables it captures,
here the state `σ`. -/
def Bucket.ForEach {σ : Type} (b : Bucket) (fn : σ → String → Json → σ × Option String) (st : σ) :
    σ × Option String :=
  match b with
  | [] => (st, none)
  | (k, v) :: rest =>
    match fn st k v with
    | (st', some e) => (st', some e)
    | (st', none) => Bucket.ForEach rest fn st'

/-! ## The store (`store.go`) -/

/-- The three buckets of the database file behind a Go `store`. -/
structure store where
  meta : Bucket
  dailyRecords : Bucket
  dailySummaries : Bucket

/-- The database as `openStore` leaves a new file: the three buckets exist and
are empty. -/
def openStore : store := ⟨[], [], []⟩

/-- Go `put`: encodes `v` and writes it under `key`. -/
def put {α : Type} [JsonCodec α] (b : Bucket) (key : String) (v : α) : Except String Bucket :=
  match JsonCodec.marshal v with
  | .error e => .error ("encoding to json: " ++ e)
  | .ok data =>
    match b.Put key data with
    | .error e => .error ("writing json blob: " ++ e)
    | .ok b' => .ok b'

/-- Go `get`: decodes the value under `key` into `v`; an absent value leaves
`v` as it is. -/
def get {α : Type} [JsonCodec α] (b : Bucket) (key : String) (v : α) : Except String α :=
  match b.Get key with
  | none => .ok v
  | some data => JsonCodec.unmarshal data v

/-- A Go `map[string]dailySummary`. -/
abbrev SummaryMap := List (String × dailySummary)

/-- The Go assignment `sums[k] = summary`. -/
def SummaryMap.set (sums : SummaryMap) (k : String) (summary : dailySummary) : SummaryMap :=
  match sums with
  | [] => [(k, summary)]
  | (k', v) :: rest => if k' = k then (k, summary) :: rest else (k', v) :: SummaryMap.set rest k summary

/-- Go `store.getSummaries`.  The closure given to `ForEach` returns an error
for a value that does not decode; the result of `ForEach` itself is not
used, and the closure given to `View` returns nil. -/
def getSummaries (s : store) : SummaryMap × Option String :=
  let scan := s.dailySummaries.ForEach (fun (sums : SummaryMap) k v =>
    match JsonCodec.unmarshal v dailySummary.zero with
    | .error e => (sums, some ("decoding summary for " ++ k ++ ": " ++ e))
    | .ok summary => (sums.set k summary, none)) []
  (scan.1, none)

/-- Go `store.getHabits`; the named result `items` is read after the closure
given to `View` has assigned it. -/
def getHabits (s : store) : Except String (List habit) :=
  match get s.meta "habits" ([] : List habit) with
  | .error e => .error ("getting habit template list from meta: " ++ e)
  | .ok items => .ok items

/-- Go `store.putHabits`: the new store and the error returned.  A failed
update is rolled back. -/
def putHabits (s : store) (items : List habit) : store × Option String :=
  match put s.meta "habits" items with
  | .error e => (s, some ("putting habit template list into meta: " ++ e))
  | .ok m => ({ s with meta := m }, none)

/-- The loop of `getHabitsForDay` over the template: a habit created before
`t` and not deleted by `t` is appended with `CreatedAt` set to `now`. -/
def backfill (templateList : List habit) (t now : Time) : List habit :=
  templateList.foldl (fun items h =>
    if h.CreatedAt.Before t && (h.DeletedAt.IsZero || h.DeletedAt.After t)
    then items ++ [{ h with CreatedAt := now }]
    else items) []

/-- Go `store.getHabitsForDay`.  `parseInLocation` is
`time.ParseInLocation("060102", ·, now.Location())` and `now` is the reading
of `time.Now()`.  The result is the pair of return values (the item list is
only given with a nil error) and the store after the call.  In
`return items, s.db.Update(...)` the named result `items` is read after the
closure has assigned it. -/
def getHabitsForDay (parseInLocation : String → Except String Time) (now : Time)
    (s : store) (fmtDate : String) : Except String (List habit) × store :=
  match parseInLocation fmtDate with
  | .error e => (.error ("parsing fmtDate " ++ fmtDate ++ ": " ++ e), s)
  | .ok t =>
    if t.After now then
      (.error ("requesting habits for " ++ fmtDate ++ ", a future date"), s)
    else
      match s.dailyRecords.Get fmtDate with
      | none =>
        match get s.meta "habits" ([] : List habit) with
        | .error e => (.error ("reading habit template list: " ++ e), s)
        | .ok templateList =>
          let items := backfill templateList t now
          match put s.dailyRecords fmtDate items with
          | .error e => (.error ("inserting habit data for new day " ++ fmtDate ++ ": " ++ e), s)
          | .ok dailys => (.ok items, { s with dailyRecords := dailys })
      | some _ =>
        match get s.dailyRecords fmtDate ([] : List habit) with
        | .error e => (.error ("getting habits for " ++ fmtDate ++ ": " ++ e), s)
        | .ok items => (.ok items, s)

/-- Go `store.putHabitsForDay`: the day record and its summary are written in
one transaction, rolled back if either write fails. -/
def putHabitsForDay (s : store) (fmtDate : String) (items : List habit) : store × Option String :=
  match put s.dailyRecords fmtDate items with
  | .error e => (s, some e)
  | .ok dailys =>
    let summary := newSummaryOfList items
    match put s.dailySummaries fmtDate summary with
    | .error e => (s, some ("setting completion status for " ++ fmtDate ++ ": " ++ e))
    | .ok sums => ({ s with dailyRecords := dailys, dailySummaries := sums }, none)

/-! ## Template merge (`main.go`) -/

/-- The inner loop of `mergeHabitTemplateWithToday`: the first habit of
today's record with the id of `tmplHabit`, searched only when `tmplHabit` is
not deleted. -/
def findCurrent (todaysHabits : List habit) (tmplHabit : habit) : Option habit :=
  match todaysHabits with
  | [] => none
  | c :: rest =>
    if c.ID = tmplHabit.ID && !tmplHabit.isDeleted then some c
    else findCurrent rest tmplHabit

/-- The outer loop of `mergeHabitTemplateWithToday` building `resolved`. -/
def resolve (habits todaysHabits : List habit) : List habit :=
  habits.foldl (fun resolved tmplHabit =>
    match findCurrent todaysHabits tmplHabit with
    | some currentHabit => resolved ++ [currentHabit]
    | none => resolved ++ [tmplHabit]) []

/-- The store side of Go `App.mergeHabitTemplateWithToday`: reads today's
record, resolves the edited template against it and writes the result back.
`fmtDate` is `time.Now().Format("060102")`. -/
def mergeHabitTemplateWithToday (parseInLocation : String → Except String Time) (now : Time)
    (s : store) (fmtDate : String) (habits : List habit) : store × Option String :=
  match getHabitsForDay parseInLocation now s fmtDate with
  | (.error e, s1) => (s1, some ("reading today's habits: " ++ e))
  | (.ok todaysHabits, s1) =>
    match putHabitsForDay s1 fmtDate (resolve habits todaysHabits) with
    | (s2, some e) => (s2, some ("saving today's new habits: " ++ e))
    | (s2, none) => (s2, none)

/-! ## The home screen (`home.go`) and the error list (`widgets.go`)

Only the state that `saveCurrentRecord` and `setSummary` read or write is
kept: the day grid, the record on display and the error list.  Widgets,
gestures and the redraw callback are left out. -/

/-- The Go struct `errWidget`, without its dismiss button. -/
structure errWidget where
  desc : String
  err : String
deriving DecidableEq

/-- The Go struct `errorList`. -/
structure errorList where
  errors : List errWidget
deriving DecidableEq

/-- Go `(*errorList).add`. -/
def errorList.add (el : errorList) (desc : String) (err : String) : errorList :=
  { el with errors := el.errors ++ [⟨desc, err⟩] }

/-- The Go struct `gridCell`, without its click gesture. -/
structure gridCell where
  day : Time
  fmtDate : String
  summary : dailySummary
deriving DecidableEq

/-- The Go struct `gridRow`; `cells` is the array `[7]gridCell`. -/
structure gridRow where
  monthText : String
  cells : List gridCell
deriving DecidableEq

/-- The Go struct `dailyRecordWidget`; a check box is represented by its
`Value`. -/
structure dailyRecordWidget where
  fmtDate : String
  prettyDate : String
  habits : List habit
  checks : List Bool
deriving DecidableEq

/-- The fields of the Go struct `homeScreen` that hold data. -/
structure homeScreen where
  gridRows : List gridRow
  record : dailyRecordWidget
  errors : errorList
deriving DecidableEq

/-- The inner loop of `setSummary` over the cells of one row: the first cell
with the date gets the summary; `none` when the row has no such cell. -/
def setSummaryInCells (cells : List gridCell) (fmtDate : String) (summary : dailySummary) :
    Option (List gridCell) :=
  match cells with
  | [] => none
  | c :: rest =>
    if c.fmtDate = fmtDate then some ({ c with summary := summary } :: rest)
    else
      match setSummaryInCells rest fmtDate summary with
      | some rest' => some (c :: rest')
      | none => none

/-- The outer loop of `setSummary` over the rows: it returns after the first
cell found. -/
def setSummaryInRows (rows : List gridRow) (fmtDate : String) (summary : dailySummary) :
    List gridRow :=
  match rows with
  | [] => []
  | r :: rest =>
    match setSummaryInCells r.cells fmtDate summary with
    | some cells => { r with cells := cells } :: rest
    | none => r :: setSummaryInRows rest fmtDate summary

/-- Go `(*homeScreen).setSummary`. -/
def homeScreen.setSummary (hs : homeScreen) (fmtDate : String) (summary : dailySummary) :
    homeScreen :=
  { hs with gridRows := setSummaryInRows hs.gridRows fmtDate summary }

/-- The outcome of a Bolt `DB.Update` whose closure, run on the store `s`,
produced `r`: when the closure returned no error the transaction is
committed, and `fault` is the error, if any, with which that commit fails (a
failed write to the database file); the update is then rolled back to `s`. -/
def commitUpdate (fault : Option String) (s : store) (r : store × Option String) :
    store × Option String :=
  match r.2, fault with
  | none, some e => (s, some e)
  | _, _ => r

/-- Go `(*homeScreen).saveCurrentRecord`: the summary of the record on display
is set in the grid, then the record is written to the store, and a failed
write is added to the error list.  `fault` is the error, if any, with which
the commit of the write fails.  The result is the screen and the store after
the call. -/
def homeScreen.saveCurrentRecord (hs : homeScreen) (s : store) (fault : Option String) :
    homeScreen × store :=
  let newSummary := newSummaryOfList hs.record.habits
  let hs1 := hs.setSummary hs.record.fmtDate newSummary
  match commitUpdate fault s (putHabitsForDay s hs.record.fmtDate hs.record.habits) with
  | (s', some err) => ({ hs1 with errors := hs1.errors.add "saving this day's habits" err }, s')
  | (s', none) => (hs1, s')

/-! ## The habit screen (`habits.go`) -/

/-- The handling of a `widget.SubmitEvent` of the new-item editor in
`habitScreen.layout`: a habit with `ID = len(habits) + 1`, created at `now`
and with the submitted text, is appended to the template.  The text of the
editor is valid UTF-8. -/
def submitNewItem (habits : List habit) (now : Time) (text : String) : List habit :=
  habits ++ [{ ID := (habits.length : Int) + 1, CreatedAt := now, CompletedAt := Time.zero,
               DeletedAt := Time.zero, Content := GoString.ofString text }]

/-! ## Notions used by the theorems -/

/-- A habit as `json.Marshal` writes it: invalid bytes of `Content` are
replaced by U+FFFD, the other fields are written as they are. -/
def habit.jsonCoerced (h : habit) : habit :=
  { h with Content := GoString.ofString h.Content.toValid }

/-- A habit whose three time fields are accepted by `Time.MarshalJSON`. -/
def habit.timesOk (h : habit) : Prop :=
  h.CreatedAt.jsonYearOk = true ∧ h.CompletedAt.jsonYearOk = true ∧ h.DeletedAt.jsonYearOk = true

/-- Store states reachable from a new database by calls of `putHabits`,
`getHabitsForDay` and `putHabitsForDay`, with any arguments, at any instant
and in any location. -/
inductive Reachable : store → Prop
  | opened : Reachable openStore
  | putHabits (s : store) (items : List habit) :
      Reachable s → Reachable (putHabits s items).1
  | getHabitsForDay (parseInLocation : String → Except String Time) (now : Time) (s : store)
      (fmtDate : String) :
      Reachable s → Reachable (getHabitsForDay parseInLocation now s fmtDate).2
  | putHabitsForDay (s : store) (fmtDate : String) (items : List habit) :
      Reachable s → Reachable (putHabitsForDay s fmtDate items).1

/-- Templates reachable from the empty template by successive submissions of
a new item on the habit screen. -/
inductive TemplateReachable : List habit → Prop
  | empty : TemplateReachable []
  | submit (habits : List habit) (now : Time) (text : String) :
      TemplateReachable habits → TemplateReachable (submitNewItem habits now text)

/-- A database file whose second summary is not the JSON of a `dailySummary`. -/
def corruptStore : store :=
  { meta := []
    dailyRecords := []
    dailySummaries :=
      [ ("240101", Json.obj [("n", Json.num 1), ("p", Json.num 1)]),
        ("240102", Json.str "oops"),
        ("240103", Json.obj [("n", Json.num 0), ("p", Json.num 0)]) ] }

/-- Every stored summary belongs to a stored day record and is the summary of
that record. -/
def SummariesFollowRecords (s : store) : Prop :=
  ∀ (d : String) (data : Json), s.dailySummaries.Get d = some data →
    ∃ (record : Json) (items : List habit), s.dailyRecords.Get d = some record ∧
      JsonCodec.unmarshal record ([] : List habit) = .ok items ∧
      JsonCodec.unmarshal data dailySummary.zero = .ok (newSummaryOfList items)

/-! ## Worked examples -/

/-- A template used in the worked examples: habit 1 is current, habit 2 was
deleted in 2023, habit 3 is created in 2029. -/
def exampleTemplate : List habit :=
  [ ⟨1, ⟨63800000000000000000⟩, Time.zero, Time.zero, "run"⟩,
    ⟨2, ⟨63800000000000000000⟩, Time.zero, ⟨63810000000000000000⟩, "read"⟩,
    ⟨3, ⟨64000000000000000000⟩, Time.zero, Time.zero, "swim"⟩ ]

/-- An instant in the afternoon of January 2, 2024 (UTC). -/
def exampleNow : Time := ⟨63839800000000000000⟩

/-- The store after the example template has been saved in a new database. -/
def exampleStore : store := (putHabits openStore exampleTemplate).1

/-- A later instant of January 2, 2024 (UTC). -/
def exampleLater : Time := ⟨63839810000000000000⟩

/-- An edited template: habit 1 is kept and habit 2 is new. -/
def exampleEdited : List habit :=
  [ ⟨1, ⟨5⟩, Time.zero, Time.zero, "run"⟩, ⟨2, ⟨15⟩, Time.zero, Time.zero, "read"⟩ ]

/-- A record of today in which habit 1 is done. -/
def exampleToday : List habit :=
  [ ⟨1, ⟨10⟩, ⟨20⟩, Time.zero, "run"⟩ ]

/-- An edited template whose habit 1 is deleted. -/
def exampleDeleted : List habit :=
  [ ⟨1, ⟨5⟩, Time.zero, ⟨30⟩, "run"⟩ ]

/-- A template habit that carries a completion time. -/
def exampleDoneHabit : habit := ⟨2, ⟨5⟩, ⟨7⟩, Time.zero, "read"⟩

/-- A home screen that shows January 2, 2024 with its one habit just checked:
the record on display holds the habit as done, and the grid cell of that day
still holds the summary of the record before the check. -/
def exampleHome : homeScreen :=
  { gridRows := [⟨"Jan", [⟨⟨63839664000000000000⟩, "240101", dailySummary.zero⟩,
                           ⟨⟨63839750400000000000⟩, "240102", dailySummary.zero⟩]⟩]
    record := ⟨"240102", "Jan 2, 2024", [⟨1, exampleNow, exampleLater, Time.zero, "run"⟩], [true]⟩
    errors := ⟨[]⟩ }

/-- A habit whose content is the letter r followed by the byte 0xff, which is
not valid UTF-8. -/
def exampleInvalidHabit : habit :=
  ⟨1, ⟨63800000000000000000⟩, Time.zero, Time.zero, ⟨[GoRune.rune 'r', GoRune.invalid 255]⟩⟩

/-! ## Buckets and the JSON codec -/

theorem Bucket.Get_insert_self (b : Bucket) (k : String) (v : Json) :
    (b.insert k v).Get k = some v := by
  induction b with
  | nil => simp [Bucket.insert, Bucket.Get]
  | cons p rest ih =>
    obtain ⟨k', v'⟩ := p
    unfold Bucket.insert
    by_cases h1 : k' = k
    · simp [h1, Bucket.Get]
    · by_cases h2 : k < k'
      · simp [h1, h2, Bucket.Get]
      · simp [h1, h2, Bucket.Get, ih]

theorem Bucket.Get_insert_ne (b : Bucket) (k k' : String) (v : Json) (hne : k' ≠ k) :
    (b.insert k v).Get k' = b.Get k' := by
  induction b with
  | nil => simp [Bucket.insert, Bucket.Get, Ne.symm hne]
  | cons p rest ih =>
    obtain ⟨k0, v0⟩ := p
    unfold Bucket.insert
    by_cases h1 : k0 = k
    · subst h1
      simp [Bucket.Get, Ne.symm hne]
    · by_cases h2 : k < k0
      · simp [h1, h2, Bucket.Get, Ne.symm hne]
      · simp only [h1, h2, if_false, Bucket.Get, ih]

theorem foldKey_id : foldKey "id" = "id" := by decide
theorem foldKey_created : foldKey "created" = "created" := by decide
theorem foldKey_compl : foldKey "compl" = "compl" := by decide
theorem foldKey_del : foldKey "del" = "del" := by decide
theorem foldKey_cont : foldKey "cont" = "cont" := by decide
theorem foldKey_n : foldKey "n" = "n" := by decide
theorem foldKey_p : foldKey "p" = "p" := by decide

theorem GoString.ofString_valid (s : String) : (GoString.ofString s).Valid := by
  intro r hr
  simp only [GoString.ofString, List.mem_map] at hr
  obtain ⟨c, _, rfl⟩ := hr
  exact ⟨c, rfl⟩

theorem GoString.ofString_toValid (g : GoString) (hv : g.Valid) :
    GoString.ofString g.toValid = g := by
  obtain ⟨runes⟩ := g
  simp only [GoString.ofString, GoString.toValid, List.map_map, GoString.mk.injEq]
  have key : ∀ l : List GoRune, (∀ r ∈ l, ∃ c, r = GoRune.rune c) →
      l.map (GoRune.rune ∘ GoRune.toValid) = l := by
    intro l
    induction l with
    | nil => intro _; rfl
    | cons a rest ih =>
      intro h
      obtain ⟨c, rfl⟩ := h a (List.mem_cons_self _ _)
      rw [List.map_cons, ih (fun r hr => h r (List.mem_cons_of_mem _ hr))]
      rfl
  exact key runes hv

theorem habit.jsonCoerced_of_valid (h : habit) (hv : h.Content.Valid) : h.jsonCoerced = h := by
  cases h with
  | mk id cr co de cont =>
    simp only [habit.jsonCoerced]
    rw [GoString.ofString_toValid cont hv]

theorem map_jsonCoerced_of_valid (items : List habit) (hv : ∀ h ∈ items, h.Content.Valid) :
    items.map habit.jsonCoerced = items := by
  induction items with
  | nil => rfl
  | cons a rest ih =>
    rw [List.map_cons, habit.jsonCoerced_of_valid a (hv a (List.mem_cons_self _ _)),
      ih (fun h hm => hv h (List.mem_cons_of_mem _ hm))]

theorem unmarshal_marshalHabit (h : habit) (j : Json) (hj : marshalHabit h = .ok j) :
    unmarshalHabit j habit.zero = .ok h.jsonCoerced := by
  unfold marshalHabit marshalTime at hj
  cases h1 : h.CreatedAt.jsonYearOk <;> cases h2 : h.CompletedAt.jsonYearOk <;>
    cases h3 : h.DeletedAt.jsonYearOk <;>
    simp [h1, h2, h3, bind, Except.bind, pure, Except.pure] at hj
  subst hj
  by_cases hc : h.Content.runes = []
  · have hcont : GoString.ofString h.Content.toValid = ⟨[]⟩ := by
      simp [GoString.ofString, GoString.toValid, hc]
    simp [hc, unmarshalHabit, List.foldlM, setHabitField, foldKey_id, foldKey_created,
      foldKey_compl, foldKey_del, unmarshalInt, unmarshalTime, h1, h2, h3, habit.zero,
      habit.jsonCoerced, hcont, bind, Except.bind, pure, Except.pure]
    rfl
  · simp [hc, unmarshalHabit, List.foldlM, setHabitField, foldKey_id, foldKey_created,
      foldKey_compl, foldKey_del, foldKey_cont, unmarshalInt, unmarshalTime, unmarshalString,
      h1, h2, h3, habit.zero, habit.jsonCoerced, bind, Except.bind, pure, Except.pure]

theorem unmarshalHabits_marshalHabits (items : List habit) :
    ∀ js : List Json, marshalHabits items = .ok js →
      unmarshalHabits js = .ok (items.map habit.jsonCoerced) := by
  induction items with
  | nil =>
    intro js h
    simp [marshalHabits] at h
    subst h
    rfl
  | cons a rest ih =>
    intro js h
    unfold marshalHabits at h
    cases ha : marshalHabit a with
    | error e => simp [ha] at h
    | ok j =>
      cases hr : marshalHabits rest with
      | error e => simp [ha, hr] at h
      | ok js' =>
        simp [ha, hr] at h
        subst h
        simp [unmarshalHabits, unmarshal_marshalHabit a j ha, ih js' hr]

theorem unmarshal_marshal_coerced (items : List habit) (data : Json) (v : List habit)
    (h : JsonCodec.marshal items = .ok data) :
    JsonCodec.unmarshal data v = .ok (items.map habit.jsonCoerced) := by
  cases items with
  | nil =>
    simp [JsonCodec.marshal] at h
    subst h
    simp [JsonCodec.unmarshal]
  | cons a rest =>
    simp only [JsonCodec.marshal] at h
    cases hm : marshalHabits (a :: rest) with
    | error e => simp [hm] at h
    | ok js =>
      simp [hm] at h
      subst h
      simpa [JsonCodec.unmarshal] using unmarshalHabits_marshalHabits (a :: rest) js hm

theorem unmarshal_marshal_habits (items : List habit) (data : Json) (v : List habit)
    (hv : ∀ h ∈ items, h.Content.Valid)
    (h : JsonCodec.marshal items = .ok data) : JsonCodec.unmarshal data v = .ok items := by
  rw [unmarshal_marshal_coerced items data v h, map_jsonCoerced_of_valid items hv]

theorem unmarshal_marshal_summary (d : dailySummary) (data : Json) (v : dailySummary)
    (h : JsonCodec.marshal d = .ok data) : JsonCodec.unmarshal data v = .ok d := by
  obtain ⟨n, p⟩ := d
  cases p with
  | nan => simp [JsonCodec.marshal, marshalF32, bind, Except.bind] at h
  | inf => simp [JsonCodec.marshal, marshalF32, bind, Except.bind] at h
  | val q =>
    simp [JsonCodec.marshal, marshalF32, bind, Except.bind, pure, Except.pure] at h
    subst h
    simp [JsonCodec.unmarshal, List.foldlM, setSummaryField, foldKey_n, foldKey_p, unmarshalInt,
      unmarshalF32, bind, Except.bind, pure, Except.pure]

/-! ## `put` and `get` -/

theorem put_ok {α : Type} [JsonCodec α] (b b' : Bucket) (key : String) (v : α)
    (h : put b key v = .ok b') :
    key ≠ "" ∧ ∃ data, JsonCodec.marshal v = .ok data ∧ b' = b.insert key data := by
  unfold put at h
  cases hm : (JsonCodec.marshal v : Except String Json) with
  | error e => simp [hm] at h
  | ok data =>
    by_cases hk : key = ""
    · simp [hm, Bucket.Put, hk] at h
    · simp [hm, Bucket.Put, hk] at h
      exact ⟨hk, data, rfl, h.symm⟩

theorem put_of_marshal {α : Type} [JsonCodec α] (b : Bucket) (key : String) (v : α) (data : Json)
    (hk : key ≠ "") (hm : JsonCodec.marshal v = .ok data) :
    put b key v = .ok (b.insert key data) := by
  simp [put, hm, Bucket.Put, hk]

theorem get_insert_habits (b : Bucket) (key : String) (items v : List habit) (data : Json)
    (hv : ∀ h ∈ items, h.Content.Valid) (hm : JsonCodec.marshal items = .ok data) :
    get (b.insert key data) key v = .ok items := by
  simp [get, Bucket.Get_insert_self, unmarshal_marshal_habits items data v hv hm]

theorem getHabits_eq_get (s : store) (tmpl : List habit) (h : getHabits s = .ok tmpl) :
    get s.meta "habits" ([] : List habit) = .ok tmpl := by
  unfold getHabits at h
  cases hg : get s.meta "habits" ([] : List habit) with
  | error e => simp [hg] at h
  | ok items => simp [hg] at h; subst h; rfl

/-! ## Summaries -/

theorem numCompl_eq_countP (list : List habit) :
    (newSummaryOfList list).NumCompl = (list.countP habit.isDone : Int) := by
  have key : ∀ (l : List habit) (n : Int),
      l.foldl (fun (n : Int) h => if h.isDone then n + 1 else n) n = n + (l.countP habit.isDone : Int) := by
    intro l
    induction l with
    | nil => intro n; simp
    | cons a rest ih =>
      intro n
      by_cases ha : a.isDone = true
      · simp [List.foldl_cons, ha, ih, List.countP_cons]
        ring
      · simp [List.foldl_cons, ha, ih, List.countP_cons]
  simp [newSummaryOfList, key]

theorem newSummaryOfList_map_jsonCoerced (list : List habit) :
    newSummaryOfList (list.map habit.jsonCoerced) = newSummaryOfList list := by
  have hc : (list.map habit.jsonCoerced).countP habit.isDone = list.countP habit.isDone := by
    rw [List.countP_map]
    rfl
  have h1 := numCompl_eq_countP (list.map habit.jsonCoerced)
  have h2 := numCompl_eq_countP list
  rw [hc] at h1
  have hn : (newSummaryOfList (list.map habit.jsonCoerced)).NumCompl
      = (newSummaryOfList list).NumCompl := by rw [h1, h2]
  simp only [newSummaryOfList, List.length_map] at hn ⊢
  rw [hn]

theorem put_summary_nil (b : Bucket) (key : String) :
    put b key (newSummaryOfList []) = .error "encoding to json: json: unsupported value: NaN" := by
  rfl

theorem putHabitsForDay_nil_fails (s : store) (fmtDate : String) :
    (putHabitsForDay s fmtDate []).1 = s ∧ (putHabitsForDay s fmtDate []).2 ≠ none := by
  unfold putHabitsForDay
  cases hp : put s.dailyRecords fmtDate ([] : List habit) with
  | error e => simp
  | ok dailys => simp [put_summary_nil]

/-! ## Decoded habits can be encoded again -/

theorem unmarshalTime_ok (data : Json) (v t : Time) (hv : v.jsonYearOk = true)
    (h : unmarshalTime data v = .ok t) : t.jsonYearOk = true := by
  cases data with
  | null => simp [unmarshalTime] at h; subst h; exact hv
  | time u =>
    by_cases hu : u.jsonYearOk = true
    · simp [unmarshalTime, hu] at h; subst h; exact hu
    · simp [unmarshalTime, hu] at h
  | bool b => simp [unmarshalTime] at h
  | num q => simp [unmarshalTime] at h
  | str s => simp [unmarshalTime] at h
  | arr l => simp [unmarshalTime] at h
  | obj l => simp [unmarshalTime] at h

theorem setHabitField_timesOk (h h' : habit) (kv : String × Json) (hok : h.timesOk)
    (hs : setHabitField h kv = .ok h') : h'.timesOk := by
  obtain ⟨h1, h2, h3⟩ := hok
  unfold setHabitField at hs
  simp only [bind, Except.bind, pure, Except.pure] at hs
  split at hs
  · cases hu : unmarshalInt kv.2 h.ID with
    | error e => simp [hu] at hs
    | ok n => simp [hu] at hs; subst hs; exact ⟨h1, h2, h3⟩
  · split at hs
    · cases hu : unmarshalTime kv.2 h.CreatedAt with
      | error e => simp [hu] at hs
      | ok t => simp [hu] at hs; subst hs; exact ⟨unmarshalTime_ok _ _ _ h1 hu, h2, h3⟩
    · split at hs
      · cases hu : unmarshalTime kv.2 h.CompletedAt with
        | error e => simp [hu] at hs
        | ok t => simp [hu] at hs; subst hs; exact ⟨h1, unmarshalTime_ok _ _ _ h2 hu, h3⟩
      · split at hs
        · cases hu : unmarshalTime kv.2 h.DeletedAt with
          | error e => simp [hu] at hs
          | ok t => simp [hu] at hs; subst hs; exact ⟨h1, h2, unmarshalTime_ok _ _ _ h3 hu⟩
        · split at hs
          · cases hu : unmarshalString kv.2 h.Content with
            | error e => simp [hu] at hs
            | ok c => simp [hu] at hs; subst hs; exact ⟨h1, h2, h3⟩
          · simp at hs; subst hs; exact ⟨h1, h2, h3⟩

theorem foldlM_setHabitField_timesOk (fields : List (String × Json)) :
    ∀ h h' : habit, h.timesOk → fields.foldlM setHabitField h = .ok h' → h'.timesOk := by
  induction fields with
  | nil =>
    intro h h' hok hf
    simp [List.foldlM, pure, Except.pure] at hf
    subst hf; exact hok
  | cons kv rest ih =>
    intro h h' hok hf
    simp only [List.foldlM, bind, Except.bind] at hf
    cases hs : setHabitField h kv with
    | error e => simp [hs] at hf
    | ok h1 =>
      simp only [hs] at hf
      exact ih h1 h' (setHabitField_timesOk h h1 kv hok hs) hf

theorem unmarshalHabit_timesOk (data : Json) (h : habit)
    (hu : unmarshalHabit data habit.zero = .ok h) : h.timesOk := by
  have hz : habit.zero.timesOk := ⟨by decide, by decide, by decide⟩
  cases data with
  | null => simp [unmarshalHabit] at hu; subst hu; exact hz
  | obj fields => exact foldlM_setHabitField_timesOk fields _ _ hz (by simpa [unmarshalHabit] using hu)
  | bool b => simp [unmarshalHabit] at hu
  | num q => simp [unmarshalHabit] at hu
  | str s => simp [unmarshalHabit] at hu
  | arr l => simp [unmarshalHabit] at hu
  | time t => simp [unmarshalHabit] at hu

theorem unmarshalHabits_timesOk (js : List Json) :
    ∀ hs : List habit, unmarshalHabits js = .ok hs → ∀ h ∈ hs, h.timesOk := by
  induction js with
  | nil =>
    intro hs hu
    simp [unmarshalHabits] at hu
    subst hu; simp
  | cons j rest ih =>
    intro hs hu
    unfold unmarshalHabits at hu
    cases h1 : unmarshalHabit j habit.zero with
    | error e => simp [h1] at hu
    | ok a =>
      cases h2 : unmarshalHabits rest with
      | error e => simp [h1, h2] at hu
      | ok as =>
        simp [h1, h2] at hu
        subst hu
        intro h hm
        rcases List.mem_cons.mp hm with rfl | hm'
        · exact unmarshalHabit_timesOk j _ h1
        · exact ih as h2 h hm'

theorem get_habits_timesOk (b : Bucket) (key : String) (items : List habit)
    (hg : get b key ([] : List habit) = .ok items) : ∀ h ∈ items, h.timesOk := by
  unfold get at hg
  cases hb : b.Get key with
  | none => simp [hb] at hg; subst hg; simp
  | some data =>
    simp only [hb] at hg
    cases data with
    | null => simp [JsonCodec.unmarshal] at hg; subst hg; simp
    | arr elems => exact unmarshalHabits_timesOk elems items (by simpa [JsonCodec.unmarshal] using hg)
    | bool b => simp [JsonCodec.unmarshal] at hg
    | num q => simp [JsonCodec.unmarshal] at hg
    | str s => simp [JsonCodec.unmarshal] at hg
    | obj l => simp [JsonCodec.unmarshal] at hg
    | time t => simp [JsonCodec.unmarshal] at hg

theorem setHabitField_contentValid (h h' : habit) (kv : String × Json) (hok : h.Content.Valid)
    (hs : setHabitField h kv = .ok h') : h'.Content.Valid := by
  unfold setHabitField at hs
  simp only [bind, Except.bind, pure, Except.pure] at hs
  split at hs
  · cases hu : unmarshalInt kv.2 h.ID with
    | error e => simp [hu] at hs
    | ok n => simp [hu] at hs; subst hs; exact hok
  · split at hs
    · cases hu : unmarshalTime kv.2 h.CreatedAt with
      | error e => simp [hu] at hs
      | ok t => simp [hu] at hs; subst hs; exact hok
    · split at hs
      · cases hu : unmarshalTime kv.2 h.CompletedAt with
        | error e => simp [hu] at hs
        | ok t => simp [hu] at hs; subst hs; exact hok
      · split at hs
        · cases hu : unmarshalTime kv.2 h.DeletedAt with
          | error e => simp [hu] at hs
          | ok t => simp [hu] at hs; subst hs; exact hok
        · split at hs
          · cases hd : kv.2 with
            | null => simp [unmarshalString, hd] at hs; subst hs; exact hok
            | str c =>
              simp [unmarshalString, hd] at hs
              subst hs
              exact GoString.ofString_valid c
            | bool b => simp [unmarshalString, hd] at hs
            | num q => simp [unmarshalString, hd] at hs
            | time t => simp [unmarshalString, hd] at hs
            | arr l => simp [unmarshalString, hd] at hs
            | obj l => simp [unmarshalString, hd] at hs
          · simp at hs; subst hs; exact hok

theorem foldlM_setHabitField_contentValid (fields : List (String × Json)) :
    ∀ h h' : habit, h.Content.Valid → fields.foldlM setHabitField h = .ok h' →
      h'.Content.Valid := by
  induction fields with
  | nil =>
    intro h h' hok hf
    simp [List.foldlM, pure, Except.pure] at hf
    subst hf; exact hok
  | cons kv rest ih =>
    intro h h' hok hf
    simp only [List.foldlM, bind, Except.bind] at hf
    cases hs : setHabitField h kv with
    | error e => simp [hs] at hf
    | ok h1 =>
      simp only [hs] at hf
      exact ih h1 h' (setHabitField_contentValid h h1 kv hok hs) hf

theorem unmarshalHabit_contentValid (data : Json) (h : habit)
    (hu : unmarshalHabit data habit.zero = .ok h) : h.Content.Valid := by
  have hz : habit.zero.Content.Valid := GoString.ofString_valid ""
  cases data with
  | null => simp [unmarshalHabit] at hu; subst hu; exact hz
  | obj fields =>
    exact foldlM_setHabitField_contentValid fields _ _ hz (by simpa [unmarshalHabit] using hu)
  | bool b => simp [unmarshalHabit] at hu
  | num q => simp [unmarshalHabit] at hu
  | str s => simp [unmarshalHabit] at hu
  | arr l => simp [unmarshalHabit] at hu
  | time t => simp [unmarshalHabit] at hu

theorem unmarshalHabits_contentValid (js : List Json) :
    ∀ hs : List habit, unmarshalHabits js = .ok hs → ∀ h ∈ hs, h.Content.Valid := by
  induction js with
  | nil =>
    intro hs hu
    simp [unmarshalHabits] at hu
    subst hu; simp
  | cons j rest ih =>
    intro hs hu
    unfold unmarshalHabits at hu
    cases h1 : unmarshalHabit j habit.zero with
    | error e => simp [h1] at hu
    | ok a =>
      cases h2 : unmarshalHabits rest with
      | error e => simp [h1, h2] at hu
      | ok as =>
        simp [h1, h2] at hu
        subst hu
        intro h hm
        rcases List.mem_cons.mp hm with rfl | hm'
        · exact unmarshalHabit_contentValid j _ h1
        · exact ih as h2 h hm'

theorem get_habits_contentValid (b : Bucket) (key : String) (items : List habit)
    (hg : get b key ([] : List habit) = .ok items) : ∀ h ∈ items, h.Content.Valid := by
  unfold get at hg
  cases hb : b.Get key with
  | none => simp [hb] at hg; subst hg; simp
  | some data =>
    simp only [hb] at hg
    cases data with
    | null => simp [JsonCodec.unmarshal] at hg; subst hg; simp
    | arr elems =>
      exact unmarshalHabits_contentValid elems items (by simpa [JsonCodec.unmarshal] using hg)
    | bool b => simp [JsonCodec.unmarshal] at hg
    | num q => simp [JsonCodec.unmarshal] at hg
    | str s => simp [JsonCodec.unmarshal] at hg
    | obj l => simp [JsonCodec.unmarshal] at hg
    | time t => simp [JsonCodec.unmarshal] at hg

theorem marshalHabit_of_timesOk (h : habit) (hok : h.timesOk) : ∃ j, marshalHabit h = .ok j := by
  obtain ⟨h1, h2, h3⟩ := hok
  simp [marshalHabit, marshalTime, h1, h2, h3, bind, Except.bind, pure, Except.pure]

theorem marshalHabits_of_timesOk (items : List habit) (hok : ∀ h ∈ items, h.timesOk) :
    ∃ js, marshalHabits items = .ok js := by
  induction items with
  | nil => exact ⟨[], rfl⟩
  | cons a rest ih =>
    obtain ⟨j, hj⟩ := marshalHabit_of_timesOk a (hok a (List.mem_cons_self _ _))
    obtain ⟨js, hjs⟩ := ih (fun h hm => hok h (List.mem_cons_of_mem _ hm))
    exact ⟨j :: js, by simp [marshalHabits, hj, hjs]⟩

theorem marshal_habits_of_timesOk (items : List habit) (hok : ∀ h ∈ items, h.timesOk) :
    ∃ data, JsonCodec.marshal items = .ok data := by
  cases items with
  | nil => exact ⟨Json.null, rfl⟩
  | cons a rest =>
    obtain ⟨js, hjs⟩ := marshalHabits_of_timesOk (a :: rest) hok
    exact ⟨Json.arr js, by simp [JsonCodec.marshal, hjs]⟩

/-! ## The loops as list functions -/

theorem backfill_eq (templateList : List habit) (t now : Time) :
    backfill templateList t now
      = ((templateList.filter (fun h =>
          h.CreatedAt.Before t && (h.DeletedAt.IsZero || h.DeletedAt.After t))).map
            (fun h => { h with CreatedAt := now })) := by
  have key : ∀ (l acc : List habit),
      l.foldl (fun items h =>
        if h.CreatedAt.Before t && (h.DeletedAt.IsZero || h.DeletedAt.After t)
        then items ++ [{ h with CreatedAt := now }] else items) acc
      = acc ++ ((l.filter (fun h =>
          h.CreatedAt.Before t && (h.DeletedAt.IsZero || h.DeletedAt.After t))).map
            (fun h => { h with CreatedAt := now })) := by
    intro l
    induction l with
    | nil => intro acc; simp
    | cons a rest ih =>
      intro acc
      by_cases hc : (a.CreatedAt.Before t && (a.DeletedAt.IsZero || a.DeletedAt.After t)) = true
      · simp only [List.foldl_cons, hc, if_true, ih]
        simp [List.filter_cons, hc]
      · simp only [List.foldl_cons, hc, if_false, ih]
        simp [List.filter_cons, hc]
  simpa [backfill] using key templateList []

theorem backfill_contentValid (templateList : List habit) (t now : Time)
    (hv : ∀ h ∈ templateList, h.Content.Valid) :
    ∀ h ∈ backfill templateList t now, h.Content.Valid := by
  intro h hm
  rw [backfill_eq] at hm
  obtain ⟨h0, hm0, rfl⟩ := List.mem_map.mp hm
  exact hv h0 (List.mem_of_mem_filter hm0)

theorem findCurrent_of_deleted (todaysHabits : List habit) (t : habit) (hdel : t.isDeleted = true) :
    findCurrent todaysHabits t = none := by
  induction todaysHabits with
  | nil => rfl
  | cons c rest ih => simp [findCurrent, hdel, ih]

theorem findCurrent_of_not_deleted (todaysHabits : List habit) (t : habit)
    (hdel : t.isDeleted = false) :
    findCurrent todaysHabits t = todaysHabits.find? (fun c => decide (c.ID = t.ID)) := by
  induction todaysHabits with
  | nil => rfl
  | cons c rest ih =>
    by_cases hc : c.ID = t.ID
    · simp [findCurrent, hdel, hc, List.find?_cons]
    · simp [findCurrent, hdel, hc, List.find?_cons, ih]

theorem resolve_eq_map (habits todaysHabits : List habit) :
    resolve habits todaysHabits
      = habits.map (fun t => (findCurrent todaysHabits t).getD t) := by
  have key : ∀ (l acc : List habit),
      l.foldl (fun resolved tmplHabit =>
        match findCurrent todaysHabits tmplHabit with
        | some currentHabit => resolved ++ [currentHabit]
        | none => resolved ++ [tmplHabit]) acc
      = acc ++ l.map (fun t => (findCurrent todaysHabits t).getD t) := by
    intro l
    induction l with
    | nil => intro acc; simp
    | cons a rest ih =>
      intro acc
      cases hf : findCurrent todaysHabits a with
      | none => simp [List.foldl_cons, hf, ih]
      | some c => simp [List.foldl_cons, hf, ih]
  simpa [resolve] using key habits []

theorem resolve_getElem? (habits todaysHabits : List habit) (i : Nat) (t : habit)
    (hi : habits[i]? = some t) :
    (resolve habits todaysHabits)[i]? = some ((findCurrent todaysHabits t).getD t) := by
  rw [resolve_eq_map, List.getElem?_map, hi]
  rfl

/-! ## What each operation leaves unchanged -/

theorem putHabits_frame (s : store) (items : List habit) :
    (putHabits s items).1.dailyRecords = s.dailyRecords ∧
      (putHabits s items).1.dailySummaries = s.dailySummaries := by
  unfold putHabits
  cases put s.meta "habits" items <;> simp

theorem getHabitsForDay_frame (parseInLocation : String → Except String Time) (now : Time)
    (s : store) (fmtDate : String) :
    (getHabitsForDay parseInLocation now s fmtDate).2.dailySummaries = s.dailySummaries ∧
      ∀ d record, s.dailyRecords.Get d = some record →
        (getHabitsForDay parseInLocation now s fmtDate).2.dailyRecords.Get d = some record := by
  unfold getHabitsForDay
  cases hp : parseInLocation fmtDate with
  | error e => simp
  | ok t =>
    by_cases ha : t.After now = true
    · simp [ha]
    · simp only [ha]
      cases hr : s.dailyRecords.Get fmtDate with
      | none =>
        cases hg : get s.meta "habits" ([] : List habit) with
        | error e => simp
        | ok templateList =>
          cases hput : put s.dailyRecords fmtDate (backfill templateList t now) with
          | error e => simp [hput]
          | ok dailys =>
            obtain ⟨_, data, _, hb⟩ := put_ok _ _ _ _ hput
            subst hb
            simp only [hput]
            refine ⟨by simp, ?_⟩
            intro d record hd
            have hne : d ≠ fmtDate := by
              intro h
              subst h
              simp [hr] at hd
            simpa [Bucket.Get_insert_ne _ _ _ _ hne] using hd
      | some v =>
        cases hg : get s.dailyRecords fmtDate ([] : List habit) with
        | error e => simp
        | ok items => simp

theorem summariesFollowRecords_putHabitsForDay (s : store) (fmtDate : String) (items : List habit)
    (hs : SummariesFollowRecords s) : SummariesFollowRecords (putHabitsForDay s fmtDate items).1 := by
  unfold putHabitsForDay
  cases hp : put s.dailyRecords fmtDate items with
  | error e => simpa using hs
  | ok dailys =>
    cases hq : put s.dailySummaries fmtDate (newSummaryOfList items) with
    | error e => simpa [hq] using hs
    | ok sums =>
      obtain ⟨_, record, hm, hb⟩ := put_ok _ _ _ _ hp
      obtain ⟨_, sdata, hms, hbs⟩ := put_ok _ _ _ _ hq
      subst hb
      subst hbs
      simp only [hq]
      intro d data hd
      by_cases hdk : d = fmtDate
      · subst hdk
        simp only [Bucket.Get_insert_self, Option.some.injEq] at hd
        subst hd
        exact ⟨record, items.map habit.jsonCoerced, Bucket.Get_insert_self _ _ _,
          unmarshal_marshal_coerced _ _ _ hm,
          by rw [newSummaryOfList_map_jsonCoerced]; exact unmarshal_marshal_summary _ _ _ hms⟩
      · simp only [Bucket.Get_insert_ne _ _ _ _ hdk] at hd ⊢
        exact hs d data hd

/-! ## Backfill (claim C1) -/

/-- Claim C1: when no day record is stored for the date key, `getHabitsForDay`
succeeds and the record it returns and stores lists, in template order, the
ids of exactly the template habits created strictly before the midnight `t`
of the date and either never deleted or deleted strictly after `t`. -/
theorem getHabitsForDay_backfill (parseInLocation : String → Except String Time) (now t : Time)
    (s : store) (fmtDate : String) (tmpl : List habit)
    (hkey : fmtDate ≠ "") (ht : parseInLocation fmtDate = .ok t) (hnow : ¬ now.ns < t.ns)
    (hyear : now.jsonYearOk = true) (hrec : s.dailyRecords.Get fmtDate = none)
    (htmpl : getHabits s = .ok tmpl) :
    ∃ items s', getHabitsForDay parseInLocation now s fmtDate = (.ok items, s') ∧
      items.map habit.ID
        = (tmpl.filter (fun h => decide (h.CreatedAt.ns < t.ns) &&
            (decide (h.DeletedAt = Time.zero) || decide (t.ns < h.DeletedAt.ns)))).map habit.ID ∧
      s'.dailyRecords.Get fmtDate ≠ none ∧
      get s'.dailyRecords fmtDate ([] : List habit) = .ok items := by
  have hg := getHabits_eq_get s tmpl htmpl
  have hok : ∀ h ∈ backfill tmpl t now, h.timesOk := by
    intro h hm
    rw [backfill_eq] at hm
    obtain ⟨h0, hm0, rfl⟩ := List.mem_map.mp hm
    have h0ok := get_habits_timesOk _ _ _ hg h0 (List.mem_of_mem_filter hm0)
    exact ⟨hyear, h0ok.2.1, h0ok.2.2⟩
  obtain ⟨data, hdata⟩ := marshal_habits_of_timesOk _ hok
  have hput := put_of_marshal s.dailyRecords fmtDate (backfill tmpl t now) data hkey hdata
  have hafter : t.After now = false := by simp [Time.After, hnow]
  refine ⟨backfill tmpl t now, { s with dailyRecords := s.dailyRecords.insert fmtDate data }, ?_, ?_, ?_, ?_⟩
  · simp [getHabitsForDay, ht, hafter, hrec, hg, hput]
  · rw [backfill_eq, List.map_map]
    have hpred : (fun h : habit => h.CreatedAt.Before t && (h.DeletedAt.IsZero || h.DeletedAt.After t))
        = (fun h : habit => decide (h.CreatedAt.ns < t.ns) &&
            (decide (h.DeletedAt = Time.zero) || decide (t.ns < h.DeletedAt.ns))) := by
      funext h
      have : (h.DeletedAt = Time.zero) ↔ h.DeletedAt.ns = 0 := by
        cases hd : h.DeletedAt
        simp [Time.zero]
      simp [Time.Before, Time.After, Time.IsZero, this]
    rw [hpred]
    rfl
  · simp [Bucket.Get_insert_self]
  · exact get_insert_habits _ _ _ _ _
      (backfill_contentValid tmpl t now (get_habits_contentValid _ _ _ hg)) hdata

/-- Claim C1 on the example template for January 2, 2024: only habit 1 is in
the window. -/
theorem getHabitsForDay_backfill_example :
    ∃ items s', getHabitsForDay parseInLocationUTC exampleNow exampleStore "240102" = (.ok items, s') ∧
      items.map habit.ID
        = (exampleTemplate.filter (fun h => decide (h.CreatedAt.ns < (63839750400000000000 : Int)) &&
            (decide (h.DeletedAt = Time.zero) ||
              decide ((63839750400000000000 : Int) < h.DeletedAt.ns)))).map habit.ID ∧
      s'.dailyRecords.Get "240102" ≠ none ∧
      get s'.dailyRecords "240102" ([] : List habit) = .ok items :=
  getHabitsForDay_backfill parseInLocationUTC exampleNow ⟨63839750400000000000⟩ exampleStore "240102"
    exampleTemplate (by decide) (by rfl) (by decide) (by decide) (by rfl) (by rfl)

/-! ## The summary written with a day record (claim C2) -/

/-- Claim C2: after a successful `putHabitsForDay`, the value stored under the
date in `dailySummaries` decodes to `newSummaryOfList items`, whose `NumCompl`
is the number of done habits and whose `PctCompl` is that number divided by
the length of the list (NaN for the empty list). -/
theorem putHabitsForDay_summary (s s' : store) (fmtDate : String) (items : List habit)
    (h : putHabitsForDay s fmtDate items = (s', none)) :
    (∃ data, s'.dailySummaries.Get fmtDate = some data ∧
        JsonCodec.unmarshal data dailySummary.zero = .ok (newSummaryOfList items)) ∧
      (newSummaryOfList items).NumCompl = (items.countP habit.isDone : Int) ∧
      (newSummaryOfList items).PctCompl
        = f32div (items.countP habit.isDone : Int) (items.length : Int) ∧
      (items = [] → (newSummaryOfList items).PctCompl = F32.nan) := by
  refine ⟨?_, numCompl_eq_countP items, ?_, ?_⟩
  · unfold putHabitsForDay at h
    cases hp : put s.dailyRecords fmtDate items with
    | error e => simp [hp] at h
    | ok dailys =>
      cases hq : put s.dailySummaries fmtDate (newSummaryOfList items) with
      | error e => simp [hp, hq] at h
      | ok sums =>
        simp [hp, hq] at h
        subst h
        obtain ⟨_, data, hm, hb⟩ := put_ok _ _ _ _ hq
        subst hb
        exact ⟨data, Bucket.Get_insert_self _ _ _, unmarshal_marshal_summary _ data _ hm⟩
  · have := numCompl_eq_countP items
    simp only [newSummaryOfList] at this ⊢
    rw [this]
  · intro hnil
    subst hnil
    rfl

/-- Claim C2 on a record of one done habit. -/
theorem putHabitsForDay_summary_example :
    (∃ data, (putHabitsForDay exampleStore "240102" exampleToday).1.dailySummaries.Get "240102"
          = some data ∧
        JsonCodec.unmarshal data dailySummary.zero = .ok (newSummaryOfList exampleToday)) ∧
      (newSummaryOfList exampleToday).NumCompl = (exampleToday.countP habit.isDone : Int) ∧
      (newSummaryOfList exampleToday).PctCompl
        = f32div (exampleToday.countP habit.isDone : Int) (exampleToday.length : Int) ∧
      (exampleToday = [] → (newSummaryOfList exampleToday).PctCompl = F32.nan) :=
  putHabitsForDay_summary exampleStore (putHabitsForDay exampleStore "240102" exampleToday).1
    "240102" exampleToday (by rfl)

/-! ## Round trip of the template (claim C3) -/

/-- Claim C3 fails as stated: a habit whose content holds a byte that is not
valid UTF-8 is saved without error, and `getHabits` returns it with that byte
replaced by U+FFFD. -/
theorem putHabits_getHabits_invalid_utf8 :
    ¬ (∀ (s s' : store) (X : List habit),
        putHabits s X = (s', none) → getHabits s' = .ok X) := by
  intro hall
  have h := hall openStore (putHabits openStore [exampleInvalidHabit]).1 [exampleInvalidHabit]
    (by rfl)
  have hget : getHabits (putHabits openStore [exampleInvalidHabit]).1
      = .ok [exampleInvalidHabit.jsonCoerced] := by rfl
  rw [hget] at h
  injection h with h
  injection h with h _
  exact absurd h (by decide)

/-- Claim C3 as amended: `getHabits` after a successful `putHabits X` returns
the habits of `X` in order, each with the same `ID`, `CreatedAt`,
`CompletedAt` and `DeletedAt` and with the invalid bytes of its `Content`
replaced by U+FFFD; it returns `X` itself when every `Content` is valid
UTF-8. -/
theorem putHabits_getHabits (s s' : store) (X : List habit)
    (h : putHabits s X = (s', none)) :
    getHabits s'
        = .ok (X.map (fun h => { h with Content := GoString.ofString h.Content.toValid })) ∧
      ((∀ h ∈ X, h.Content.Valid) → getHabits s' = .ok X) := by
  unfold putHabits at h
  cases hp : put s.meta "habits" X with
  | error e => simp [hp] at h
  | ok m =>
    simp [hp] at h
    subst h
    obtain ⟨_, data, hm, hb⟩ := put_ok _ _ _ _ hp
    subst hb
    have hget : getHabits { s with meta := s.meta.insert "habits" data }
        = .ok (X.map habit.jsonCoerced) := by
      simp [getHabits, get, Bucket.Get_insert_self, unmarshal_marshal_coerced X data [] hm]
    refine ⟨hget, fun hv => ?_⟩
    rw [hget, map_jsonCoerced_of_valid X hv]

/-- Claim C3 as amended, on the example template of three habits saved in a
new database. -/
theorem putHabits_getHabits_example :
    getHabits exampleStore
        = .ok (exampleTemplate.map
            (fun h => { h with Content := GoString.ofString h.Content.toValid })) ∧
      ((∀ h ∈ exampleTemplate, h.Content.Valid) → getHabits exampleStore = .ok exampleTemplate) :=
  putHabits_getHabits openStore exampleStore exampleTemplate (by rfl)

/-! ## Reading a day twice (claim C4) -/

/-- Claim C4: when `getHabitsForDay` has returned `items` for a date and left
the store `s1`, a second call for that date at an instant not before the date
returns `items` again and leaves `s1`, so its day records and summaries,
unchanged. -/
theorem getHabitsForDay_twice (parseInLocation : String → Except String Time) (now1 now2 t : Time)
    (s s1 : store) (fmtDate : String) (items : List habit)
    (h1 : getHabitsForDay parseInLocation now1 s fmtDate = (.ok items, s1))
    (ht : parseInLocation fmtDate = .ok t) (h2 : ¬ now2.ns < t.ns) :
    getHabitsForDay parseInLocation now2 s1 fmtDate = (.ok items, s1) := by
  have hafter2 : t.After now2 = false := by simp [Time.After, h2]
  unfold getHabitsForDay at h1
  simp only [ht] at h1
  by_cases ha : t.After now1 = true
  · simp [ha] at h1
  · simp only [ha] at h1
    cases hr : s.dailyRecords.Get fmtDate with
    | none =>
      simp only [hr] at h1
      cases hg : get s.meta "habits" ([] : List habit) with
      | error e => simp [hg] at h1
      | ok templateList =>
        simp only [hg] at h1
        cases hput : put s.dailyRecords fmtDate (backfill templateList t now1) with
        | error e => simp [hput] at h1
        | ok dailys =>
          simp [hput] at h1
          obtain ⟨hitems, hs1⟩ := h1
          subst hs1
          obtain ⟨_, data, hm, hb⟩ := put_ok _ _ _ _ hput
          subst hb
          rw [hitems] at hm
          have hv : ∀ h ∈ items, h.Content.Valid := by
            rw [← hitems]
            exact backfill_contentValid templateList t now1 (get_habits_contentValid _ _ _ hg)
          simp [getHabitsForDay, ht, hafter2, Bucket.Get_insert_self,
            get_insert_habits _ _ _ _ _ hv hm]
    | some v =>
      simp only [hr] at h1
      cases hg : get s.dailyRecords fmtDate ([] : List habit) with
      | error e => simp [hg] at h1
      | ok items' =>
        simp [hg] at h1
        obtain ⟨hitems, hs1⟩ := h1
        subst hs1
        subst hitems
        simp [getHabitsForDay, ht, hafter2, hr, hg]

/-- Claim C4 on the example store: the first call backfills January 2, 2024
and the second call, later that day, reads the record back. -/
theorem getHabitsForDay_twice_example :
    getHabitsForDay parseInLocationUTC exampleLater
        (getHabitsForDay parseInLocationUTC exampleNow exampleStore "240102").2 "240102"
      = (.ok [⟨1, exampleNow, Time.zero, Time.zero, "run"⟩],
          (getHabitsForDay parseInLocationUTC exampleNow exampleStore "240102").2) :=
  getHabitsForDay_twice parseInLocationUTC exampleNow exampleLater ⟨63839750400000000000⟩
    exampleStore (getHabitsForDay parseInLocationUTC exampleNow exampleStore "240102").2 "240102"
    [⟨1, exampleNow, Time.zero, Time.zero, "run"⟩] (by rfl) (by rfl) (by decide)

/-! ## Future dates (claim C5) -/

/-- Claim C5: for a date key whose midnight is strictly after `now`,
`getHabitsForDay` returns an error and the store is unchanged. -/
theorem getHabitsForDay_future (parseInLocation : String → Except String Time) (now t : Time)
    (s : store) (fmtDate : String)
    (ht : parseInLocation fmtDate = .ok t) (hfut : now.ns < t.ns) :
    (∃ e, (getHabitsForDay parseInLocation now s fmtDate).1 = .error e) ∧
      (getHabitsForDay parseInLocation now s fmtDate).2 = s := by
  have hafter : t.After now = true := by simp [Time.After, hfut]
  simp [getHabitsForDay, ht, hafter]

/-- Claim C5 for the day after the example instant. -/
theorem getHabitsForDay_future_example :
    (∃ e, (getHabitsForDay parseInLocationUTC exampleNow exampleStore "240103").1 = .error e) ∧
      (getHabitsForDay parseInLocationUTC exampleNow exampleStore "240103").2 = exampleStore :=
  getHabitsForDay_future parseInLocationUTC exampleNow ⟨63839836800000000000⟩ exampleStore "240103"
    (by rfl) (by decide)

/-! ## Template merge (claims C6, C7, C8) -/

/-- Claim C6: for the template habit `t` at position `i`, not deleted and with
an id that occurs in today's record, the resolved list holds at position `i`
the first habit `c` of today's record with that id, unchanged; if the habits
of today's record with that id are done, so is the emitted habit. -/
theorem resolve_keeps_todays_habit (habits todaysHabits : List habit) (i : Nat) (t : habit)
    (hi : habits[i]? = some t) (hdel : t.isDeleted = false)
    (hocc : ∃ c ∈ todaysHabits, c.ID = t.ID) :
    ∃ c, c ∈ todaysHabits ∧ c.ID = t.ID ∧
      todaysHabits.find? (fun c => decide (c.ID = t.ID)) = some c ∧
      (resolve habits todaysHabits)[i]? = some c ∧
      ((∀ c' ∈ todaysHabits, c'.ID = t.ID → c'.isDone = true) → c.isDone = true) := by
  obtain ⟨c0, hc0, hid0⟩ := hocc
  cases hf : todaysHabits.find? (fun c => decide (c.ID = t.ID)) with
  | none =>
    have := List.find?_eq_none.mp hf c0 hc0
    simp [hid0] at this
  | some c =>
    have hmem : c ∈ todaysHabits := List.mem_of_find?_eq_some hf
    have hid : c.ID = t.ID := by simpa using List.find?_some hf
    refine ⟨c, hmem, hid, rfl, ?_, fun hall => hall c hmem hid⟩
    rw [resolve_getElem? habits todaysHabits i t hi, findCurrent_of_not_deleted _ _ hdel, hf]
    rfl

/-- Claim C6 on the example: habit 1, done today, is kept as it is in today's
record. -/
theorem resolve_keeps_todays_habit_example :
    ∃ c, c ∈ exampleToday ∧ c.ID = (1 : Int) ∧
      exampleToday.find? (fun c => decide (c.ID = (1 : Int))) = some c ∧
      (resolve exampleEdited exampleToday)[0]? = some c ∧
      ((∀ c' ∈ exampleToday, c'.ID = (1 : Int) → c'.isDone = true) → c.isDone = true) :=
  resolve_keeps_todays_habit exampleEdited exampleToday 0 ⟨1, ⟨5⟩, Time.zero, Time.zero, "run"⟩
    (by rfl) (by decide) ⟨_, List.mem_singleton.mpr rfl, rfl⟩

/-- Claim C7 fails as stated: the edited template `exampleDeleted` has the
single habit 1, deleted, today's record holds habit 1, and the resolved list
still contains a habit with id 1. -/
theorem resolve_keeps_deleted_id :
    ¬ (∀ (habits todaysHabits : List habit) (t : habit), t ∈ habits → t.isDeleted = true →
        (∀ t' ∈ habits, t'.ID = t.ID → t' = t) →
        ∀ r ∈ resolve habits todaysHabits, r.ID ≠ t.ID) := by
  intro h
  have hres : resolve exampleDeleted exampleToday = exampleDeleted := by decide
  refine h exampleDeleted exampleToday ⟨1, ⟨5⟩, Time.zero, ⟨30⟩, "run"⟩
    (List.mem_singleton.mpr rfl) (by decide) ?_ ⟨1, ⟨5⟩, Time.zero, ⟨30⟩, "run"⟩ ?_ rfl
  · intro t' ht' _
    exact List.mem_singleton.mp ht'
  · rw [hres]
    exact List.mem_singleton.mpr rfl

/-- Claim C7 as amended: a deleted template habit `t` at position `i` is not
matched with today's record; the resolved list holds `t` itself, with its
deletion time, at position `i`, and has the length of the edited template. -/
theorem resolve_emits_deleted_habit (habits todaysHabits : List habit) (i : Nat) (t : habit)
    (hi : habits[i]? = some t) (hdel : t.isDeleted = true) :
    (resolve habits todaysHabits)[i]? = some t ∧
      (resolve habits todaysHabits).length = habits.length := by
  refine ⟨?_, by simp [resolve_eq_map]⟩
  rw [resolve_getElem? habits todaysHabits i t hi, findCurrent_of_deleted _ _ hdel]
  rfl

/-- Claim C7 as amended, on the example: the deleted habit 1 of the template
replaces habit 1 of today's record. -/
theorem resolve_emits_deleted_habit_example :
    (resolve exampleDeleted exampleToday)[0]? = some ⟨1, ⟨5⟩, Time.zero, ⟨30⟩, "run"⟩ ∧
      (resolve exampleDeleted exampleToday).length = exampleDeleted.length :=
  resolve_emits_deleted_habit exampleDeleted exampleToday 0 ⟨1, ⟨5⟩, Time.zero, ⟨30⟩, "run"⟩
    (by rfl) (by decide)

/-- Claim C8 fails as stated: a template habit that carries a completion time
and whose id is not in today's record is emitted as it is, so the resolved
list has no habit with its id and content that is not done. -/
theorem resolve_new_habit_may_be_done :
    ¬ (∀ (habits todaysHabits : List habit) (t : habit), t ∈ habits → t.isDeleted = false →
        (∀ c ∈ todaysHabits, c.ID ≠ t.ID) →
        ∃ r ∈ resolve habits todaysHabits, r.ID = t.ID ∧ r.Content = t.Content ∧ r.isDone = false) := by
  intro h
  obtain ⟨r, hr, _, _, hdone⟩ :=
    h [exampleDoneHabit] [] exampleDoneHabit (List.mem_singleton.mpr rfl) (by decide) (by simp)
  have hres : resolve [exampleDoneHabit] [] = [exampleDoneHabit] := by decide
  rw [hres, List.mem_singleton] at hr
  subst hr
  revert hdone
  decide

/-- Claim C8 as amended: for the template habit `t` at position `i`, not
deleted and with an id that does not occur in today's record, the resolved
list holds `t` itself at position `i`; when `t` is not done, the list so
contains a habit with the id and content of `t` that is not done. -/
theorem resolve_emits_template_habit (habits todaysHabits : List habit) (i : Nat) (t : habit)
    (hi : habits[i]? = some t) (hdel : t.isDeleted = false)
    (hnocc : ∀ c ∈ todaysHabits, c.ID ≠ t.ID) :
    (resolve habits todaysHabits)[i]? = some t ∧
      (t.isDone = false →
        ∃ r ∈ resolve habits todaysHabits, r.ID = t.ID ∧ r.Content = t.Content ∧ r.isDone = false) := by
  have hf : todaysHabits.find? (fun c => decide (c.ID = t.ID)) = none := by
    rw [List.find?_eq_none]
    intro c hc
    simpa using hnocc c hc
  have hget : (resolve habits todaysHabits)[i]? = some t := by
    rw [resolve_getElem? habits todaysHabits i t hi, findCurrent_of_not_deleted _ _ hdel, hf]
    rfl
  exact ⟨hget, fun hdone => ⟨t, List.getElem?_mem hget, rfl, rfl, hdone⟩⟩

/-- Claim C8 as amended, on the example: the new habit 2 is emitted as the
template has it, not done. -/
theorem resolve_emits_template_habit_example :
    (resolve exampleEdited exampleToday)[1]? = some ⟨2, ⟨15⟩, Time.zero, Time.zero, "read"⟩ ∧
      ((⟨2, ⟨15⟩, Time.zero, Time.zero, "read"⟩ : habit).isDone = false →
        ∃ r ∈ resolve exampleEdited exampleToday,
          r.ID = (⟨2, ⟨15⟩, Time.zero, Time.zero, "read"⟩ : habit).ID ∧
          r.Content = (⟨2, ⟨15⟩, Time.zero, Time.zero, "read"⟩ : habit).Content ∧ r.isDone = false) :=
  resolve_emits_template_habit exampleEdited exampleToday 1 ⟨2, ⟨15⟩, Time.zero, Time.zero, "read"⟩
    (by rfl) (by decide) (by decide)

/-! ## Summaries and day records in reachable stores (claim C9) -/

/-- Claim C9 fails as stated: after the template is saved in a new database
and January 2, 2024 is read once, that date has a day record and no
summary. -/
theorem backfill_stores_no_summary :
    ¬ (∀ s : store, Reachable s →
        ∀ d : String, (s.dailyRecords.Get d).isSome = true → (s.dailySummaries.Get d).isSome = true) := by
  intro h
  have hsum := h (getHabitsForDay parseInLocationUTC exampleNow exampleStore "240102").2
    (Reachable.getHabitsForDay _ _ _ _ (Reachable.putHabits _ _ Reachable.opened))
    "240102" (by rfl)
  have hnone : ((getHabitsForDay parseInLocationUTC exampleNow exampleStore "240102").2.dailySummaries.Get
      "240102").isSome = false := by rfl
  rw [hnone] at hsum
  exact Bool.noConfusion hsum

/-- Claim C9 as amended: in every reachable store, every date that has a
stored summary also has a stored day record, and the summary decodes to
`newSummaryOfList` of the decoded day record. -/
theorem reachable_summaries_follow_records (s : store) (hs : Reachable s) :
    ∀ (d : String) (data : Json), s.dailySummaries.Get d = some data →
      ∃ (record : Json) (items : List habit), s.dailyRecords.Get d = some record ∧
        JsonCodec.unmarshal record ([] : List habit) = .ok items ∧
        JsonCodec.unmarshal data dailySummary.zero = .ok (newSummaryOfList items) := by
  show SummariesFollowRecords s
  induction hs with
  | opened =>
    intro d data hd
    simp [openStore, Bucket.Get] at hd
  | putHabits s items _ ih =>
    intro d data hd
    obtain ⟨h1, h2⟩ := putHabits_frame s items
    rw [h2] at hd
    rw [h1]
    exact ih d data hd
  | getHabitsForDay parseInLocation now s fmtDate _ ih =>
    intro d data hd
    obtain ⟨h1, h2⟩ := getHabitsForDay_frame parseInLocation now s fmtDate
    rw [h1] at hd
    obtain ⟨record, items, hr, hi, hsum⟩ := ih d data hd
    exact ⟨record, items, h2 d record hr, hi, hsum⟩
  | putHabitsForDay s fmtDate items _ ih =>
    exact summariesFollowRecords_putHabitsForDay s fmtDate items ih

/-- Claim C9 as amended, on the store reached by saving the example template
and then writing it as the record of January 2, 2024. -/
theorem reachable_summaries_follow_records_example :
    ∃ (record : Json) (items : List habit),
      (putHabitsForDay exampleStore "240102" exampleTemplate).1.dailyRecords.Get "240102" = some record ∧
        JsonCodec.unmarshal record ([] : List habit) = .ok items ∧
        JsonCodec.unmarshal
            (Json.obj [("n", Json.num ((0 : Int) : ℚ)), ("p", Json.num (((0 : Int) : ℚ) / ((3 : Int) : ℚ)))])
            dailySummary.zero
          = .ok (newSummaryOfList items) :=
  reachable_summaries_follow_records (putHabitsForDay exampleStore "240102" exampleTemplate).1
    (Reachable.putHabitsForDay _ _ _ (Reachable.putHabits _ _ Reachable.opened))
    "240102"
    (Json.obj [("n", Json.num ((0 : Int) : ℚ)), ("p", Json.num (((0 : Int) : ℚ) / ((3 : Int) : ℚ)))])
    (by rfl)

/-! ## Scanning the summaries (claim C10) -/

/-- Claim C10, evaluated on a database whose second summary does not decode:
`getSummaries` returns the summaries read before the bad entry together with
a nil error. -/
theorem getSummaries_drops_decode_error :
    (JsonCodec.unmarshal (Json.str "oops") dailySummary.zero : Except String dailySummary)
        = .error "cannot unmarshal into Go value of type main.dailySummary" ∧
      getSummaries corruptStore = ([("240101", ⟨1, F32.val 1⟩)], none) :=
  ⟨rfl, by rfl⟩

/-! ## The backfilled record as a function of template, date and instant -/

theorem getHabitsForDay_of_absent (parseInLocation : String → Except String Time) (now t : Time)
    (s : store) (fmtDate : String) (tmpl : List habit)
    (hkey : fmtDate ≠ "") (ht : parseInLocation fmtDate = .ok t) (hnow : ¬ now.ns < t.ns)
    (hyear : now.jsonYearOk = true) (hrec : s.dailyRecords.Get fmtDate = none)
    (htmpl : getHabits s = .ok tmpl) :
    ∃ s', getHabitsForDay parseInLocation now s fmtDate = (.ok (backfill tmpl t now), s') := by
  have hg := getHabits_eq_get s tmpl htmpl
  have hok : ∀ h ∈ backfill tmpl t now, h.timesOk := by
    intro h hm
    rw [backfill_eq] at hm
    obtain ⟨h0, hm0, rfl⟩ := List.mem_map.mp hm
    have h0ok := get_habits_timesOk _ _ _ hg h0 (List.mem_of_mem_filter hm0)
    exact ⟨hyear, h0ok.2.1, h0ok.2.2⟩
  obtain ⟨data, hdata⟩ := marshal_habits_of_timesOk _ hok
  have hput := put_of_marshal s.dailyRecords fmtDate (backfill tmpl t now) data hkey hdata
  have hafter : t.After now = false := by simp [Time.After, hnow]
  exact ⟨{ s with dailyRecords := s.dailyRecords.insert fmtDate data }, by
    simp [getHabitsForDay, ht, hafter, hrec, hg, hput]⟩

theorem mem_backfill (templateList : List habit) (t now : Time) (h : habit)
    (hm : h ∈ backfill templateList t now) :
    ∃ h0 ∈ templateList, h = { h0 with CreatedAt := now } ∧ h0.CreatedAt.ns < t.ns ∧
      (h0.DeletedAt = Time.zero ∨ t.ns < h0.DeletedAt.ns) := by
  rw [backfill_eq] at hm
  obtain ⟨h0, hm0, rfl⟩ := List.mem_map.mp hm
  obtain ⟨hmem, hp⟩ := List.mem_filter.mp hm0
  refine ⟨h0, hmem, rfl, ?_⟩
  have hz : h0.DeletedAt.ns = 0 → h0.DeletedAt = Time.zero := by
    intro h
    cases hd : h0.DeletedAt with
    | mk n => rw [hd] at h; simp at h; subst h; rfl
  simp only [Time.Before, Time.IsZero, Time.After, Bool.and_eq_true, Bool.or_eq_true,
    decide_eq_true_eq] at hp
  exact ⟨hp.1, hp.2.imp hz id⟩

theorem backfill_eq_window (templateList : List habit) (t now : Time) :
    backfill templateList t now
      = (templateList.filter (fun h0 => decide (h0.CreatedAt.ns < t.ns) &&
          (decide (h0.DeletedAt = Time.zero) || decide (t.ns < h0.DeletedAt.ns)))).map
            (fun h0 => { h0 with CreatedAt := now }) := by
  have hpred : (fun h : habit => h.CreatedAt.Before t && (h.DeletedAt.IsZero || h.DeletedAt.After t))
      = (fun h : habit => decide (h.CreatedAt.ns < t.ns) &&
          (decide (h.DeletedAt = Time.zero) || decide (t.ns < h.DeletedAt.ns))) := by
    funext h
    have : (h.DeletedAt = Time.zero) ↔ h.DeletedAt.ns = 0 := by
      cases hd : h.DeletedAt
      simp [Time.zero]
    simp [Time.Before, Time.After, Time.IsZero, this]
  rw [backfill_eq, hpred]

theorem backfill_map_createdAt (templateList : List habit) (t now1 now2 : Time) :
    backfill templateList t now2
      = (backfill templateList t now1).map (fun h => { h with CreatedAt := now2 }) := by
  rw [backfill_eq, backfill_eq, List.map_map]
  rfl

/-! ## Completion and deletion times of a backfilled record (claim C11) -/

/-- Claim C11 fails as stated: habit 2 of the example template is deleted in
January 2023, so the record backfilled for October 1, 2022 contains it with
its deletion time. -/
theorem backfill_keeps_deletion_time :
    ¬ (∀ (parseInLocation : String → Except String Time) (now : Time) (s s' : store)
        (fmtDate : String) (items : List habit),
        s.dailyRecords.Get fmtDate = none →
        getHabitsForDay parseInLocation now s fmtDate = (.ok items, s') →
        ∀ h ∈ items, h.CompletedAt = Time.zero ∧ h.DeletedAt = Time.zero) := by
  intro hall
  have h := hall parseInLocationUTC exampleNow exampleStore
    (getHabitsForDay parseInLocationUTC exampleNow exampleStore "221001").2 "221001"
    [⟨1, exampleNow, Time.zero, Time.zero, "run"⟩,
     ⟨2, exampleNow, Time.zero, ⟨63810000000000000000⟩, "read"⟩]
    (by rfl) (by rfl) ⟨2, exampleNow, Time.zero, ⟨63810000000000000000⟩, "read"⟩
    (List.mem_cons_of_mem _ (List.mem_singleton.mpr rfl))
  exact absurd h.2 (by decide)

/-- Claim C11 as amended: the record that `getHabitsForDay` backfills is the
template filtered by the window of the date, in template order, each habit
copied with only `CreatedAt` rewritten to `now`.  Every habit of the record
is so a template habit created before the midnight of the date, with its
`ID`, `Content`, `CompletedAt` and `DeletedAt`, the latter zero or strictly
after that midnight.  When the template habits are neither done nor deleted,
neither are the habits of the record. -/
theorem getHabitsForDay_backfill_fields (parseInLocation : String → Except String Time)
    (now t : Time) (s : store) (fmtDate : String) (tmpl : List habit)
    (hkey : fmtDate ≠ "") (ht : parseInLocation fmtDate = .ok t) (hnow : ¬ now.ns < t.ns)
    (hyear : now.jsonYearOk = true) (hrec : s.dailyRecords.Get fmtDate = none)
    (htmpl : getHabits s = .ok tmpl) :
    ∃ items s', getHabitsForDay parseInLocation now s fmtDate = (.ok items, s') ∧
      items = (tmpl.filter (fun h0 => decide (h0.CreatedAt.ns < t.ns) &&
          (decide (h0.DeletedAt = Time.zero) || decide (t.ns < h0.DeletedAt.ns)))).map
            (fun h0 => { h0 with CreatedAt := now }) ∧
      (∀ h ∈ items, ∃ h0 ∈ tmpl, h = { h0 with CreatedAt := now } ∧
        h.ID = h0.ID ∧ h.Content = h0.Content ∧ h.CreatedAt = now ∧
        h.CompletedAt = h0.CompletedAt ∧ h.DeletedAt = h0.DeletedAt ∧
        h0.CreatedAt.ns < t.ns ∧ (h.DeletedAt = Time.zero ∨ t.ns < h.DeletedAt.ns)) ∧
      ((∀ h0 ∈ tmpl, h0.isDone = false ∧ h0.isDeleted = false) →
        ∀ h ∈ items, h.isDone = false ∧ h.isDeleted = false) := by
  obtain ⟨s', hcall⟩ :=
    getHabitsForDay_of_absent parseInLocation now t s fmtDate tmpl hkey ht hnow hyear hrec htmpl
  refine ⟨backfill tmpl t now, s', hcall, backfill_eq_window tmpl t now, ?_, ?_⟩
  · intro h hm
    obtain ⟨h0, hmem, rfl, hcr, hdel⟩ := mem_backfill tmpl t now h hm
    exact ⟨h0, hmem, rfl, rfl, rfl, rfl, rfl, rfl, hcr, hdel⟩
  · intro hall h hm
    obtain ⟨h0, hmem, rfl, _, _⟩ := mem_backfill tmpl t now h hm
    exact hall h0 hmem

/-- Claim C11 as amended, on the example template for October 1, 2022: habits
1 and 2 are in the window, and habit 2 keeps its deletion time of 2023. -/
theorem getHabitsForDay_backfill_fields_example :
    ∃ items s', getHabitsForDay parseInLocationUTC exampleNow exampleStore "221001" = (.ok items, s') ∧
      items = (exampleTemplate.filter (fun h0 =>
          decide (h0.CreatedAt.ns < (63800179200000000000 : Int)) &&
          (decide (h0.DeletedAt = Time.zero) ||
            decide ((63800179200000000000 : Int) < h0.DeletedAt.ns)))).map
            (fun h0 => { h0 with CreatedAt := exampleNow }) ∧
      (∀ h ∈ items, ∃ h0 ∈ exampleTemplate, h = { h0 with CreatedAt := exampleNow } ∧
        h.ID = h0.ID ∧ h.Content = h0.Content ∧ h.CreatedAt = exampleNow ∧
        h.CompletedAt = h0.CompletedAt ∧ h.DeletedAt = h0.DeletedAt ∧
        h0.CreatedAt.ns < (63800179200000000000 : Int) ∧
        (h.DeletedAt = Time.zero ∨ (63800179200000000000 : Int) < h.DeletedAt.ns)) ∧
      ((∀ h0 ∈ exampleTemplate, h0.isDone = false ∧ h0.isDeleted = false) →
        ∀ h ∈ items, h.isDone = false ∧ h.isDeleted = false) :=
  getHabitsForDay_backfill_fields parseInLocationUTC exampleNow ⟨63800179200000000000⟩
    exampleStore "221001" exampleTemplate (by decide) (by rfl) (by decide) (by decide) (by rfl)
    (by rfl)

/-! ## Two backfills of the same date (claim C12) -/

/-- Claim C12 fails as stated: backfilling January 2, 2024 from the example
store at two instants of that day gives two records that differ, in
`CreatedAt`. -/
theorem backfill_depends_on_instant :
    ¬ (∀ (parseInLocation : String → Except String Time) (now1 now2 t : Time) (s s1 s2 : store)
        (fmtDate : String) (items1 items2 : List habit),
        parseInLocation fmtDate = .ok t → ¬ now1.ns < t.ns → ¬ now2.ns < t.ns →
        s.dailyRecords.Get fmtDate = none →
        getHabitsForDay parseInLocation now1 s fmtDate = (.ok items1, s1) →
        getHabitsForDay parseInLocation now2 s fmtDate = (.ok items2, s2) →
        items1 = items2) := by
  intro hall
  have h := hall parseInLocationUTC exampleNow exampleLater ⟨63839750400000000000⟩ exampleStore
    (getHabitsForDay parseInLocationUTC exampleNow exampleStore "240102").2
    (getHabitsForDay parseInLocationUTC exampleLater exampleStore "240102").2 "240102"
    [⟨1, exampleNow, Time.zero, Time.zero, "run"⟩]
    [⟨1, exampleLater, Time.zero, Time.zero, "run"⟩]
    (by rfl) (by decide) (by decide) (by rfl) (by rfl) (by rfl)
  exact absurd h (by decide)

/-- Claim C12 as amended: two backfills of the same date from the same store,
at instants `now1` and `now2` not before the date, both succeed, and the
second record is the first one with `CreatedAt` set to `now2`: the records
have the same habits in the same order and agree on every field but
`CreatedAt`. -/
theorem getHabitsForDay_backfill_two_instants (parseInLocation : String → Except String Time)
    (now1 now2 t : Time) (s : store) (fmtDate : String) (tmpl : List habit)
    (hkey : fmtDate ≠ "") (ht : parseInLocation fmtDate = .ok t)
    (hnow1 : ¬ now1.ns < t.ns) (hnow2 : ¬ now2.ns < t.ns)
    (hyear1 : now1.jsonYearOk = true) (hyear2 : now2.jsonYearOk = true)
    (hrec : s.dailyRecords.Get fmtDate = none) (htmpl : getHabits s = .ok tmpl) :
    ∃ items1 s1 items2 s2,
      getHabitsForDay parseInLocation now1 s fmtDate = (.ok items1, s1) ∧
      getHabitsForDay parseInLocation now2 s fmtDate = (.ok items2, s2) ∧
      items2 = items1.map (fun h => { h with CreatedAt := now2 }) ∧
      items1.map (fun h => (h.ID, h.CompletedAt, h.DeletedAt, h.Content))
        = items2.map (fun h => (h.ID, h.CompletedAt, h.DeletedAt, h.Content)) := by
  obtain ⟨s1, h1⟩ :=
    getHabitsForDay_of_absent parseInLocation now1 t s fmtDate tmpl hkey ht hnow1 hyear1 hrec htmpl
  obtain ⟨s2, h2⟩ :=
    getHabitsForDay_of_absent parseInLocation now2 t s fmtDate tmpl hkey ht hnow2 hyear2 hrec htmpl
  refine ⟨_, s1, _, s2, h1, h2, backfill_map_createdAt tmpl t now1 now2, ?_⟩
  rw [backfill_map_createdAt tmpl t now1 now2, List.map_map]
  rfl

/-- Claim C12 as amended, on the example store at two instants of January 2,
2024. -/
theorem getHabitsForDay_backfill_two_instants_example :
    ∃ items1 s1 items2 s2,
      getHabitsForDay parseInLocationUTC exampleNow exampleStore "240102" = (.ok items1, s1) ∧
      getHabitsForDay parseInLocationUTC exampleLater exampleStore "240102" = (.ok items2, s2) ∧
      items2 = items1.map (fun h => { h with CreatedAt := exampleLater }) ∧
      items1.map (fun h => (h.ID, h.CompletedAt, h.DeletedAt, h.Content))
        = items2.map (fun h => (h.ID, h.CompletedAt, h.DeletedAt, h.Content)) :=
  getHabitsForDay_backfill_two_instants parseInLocationUTC exampleNow exampleLater
    ⟨63839750400000000000⟩ exampleStore "240102" exampleTemplate (by decide) (by rfl)
    (by decide) (by decide) (by decide) (by decide) (by rfl) (by rfl)

/-! ## What `putHabitsForDay` changes (claim C13) -/

/-- Claim C13: `putHabitsForDay` leaves the template bucket as it is, and for
every other date key the stored day record and the stored summary are
unchanged, whatever the items are and whether or not the write succeeds. -/
theorem putHabitsForDay_frame (s : store) (fmtDate : String) (items : List habit)
    (other : String) (hne : other ≠ fmtDate) :
    (putHabitsForDay s fmtDate items).1.meta = s.meta ∧
      (putHabitsForDay s fmtDate items).1.dailyRecords.Get other = s.dailyRecords.Get other ∧
      (putHabitsForDay s fmtDate items).1.dailySummaries.Get other
        = s.dailySummaries.Get other := by
  unfold putHabitsForDay
  cases hp : put s.dailyRecords fmtDate items with
  | error e => simp
  | ok dailys =>
    cases hq : put s.dailySummaries fmtDate (newSummaryOfList items) with
    | error e => simp [hq]
    | ok sums =>
      obtain ⟨_, record, _, hb⟩ := put_ok _ _ _ _ hp
      obtain ⟨_, sdata, _, hbs⟩ := put_ok _ _ _ _ hq
      subst hb
      subst hbs
      simp [hq, Bucket.Get_insert_ne _ _ _ _ hne]

/-- Claim C13 on the example: writing a record with a done habit for January
2, 2024 leaves the template and the entries of January 1 as they were. -/
theorem putHabitsForDay_frame_example :
    (putHabitsForDay exampleStore "240102" exampleToday).1.meta = exampleStore.meta ∧
      (putHabitsForDay exampleStore "240102" exampleToday).1.dailyRecords.Get "240101"
        = exampleStore.dailyRecords.Get "240101" ∧
      (putHabitsForDay exampleStore "240102" exampleToday).1.dailySummaries.Get "240101"
        = exampleStore.dailySummaries.Get "240101" :=
  putHabitsForDay_frame exampleStore "240102" exampleToday "240101" (by decide)

/-! ## Order of the resolved list (claim C14) -/

/-- Claim C14: the id sequence of the resolved list is the id sequence of the
edited template, so in particular a subsequence of it, whatever the order of
today's record. -/
theorem resolve_ids (habits todaysHabits : List habit) :
    (resolve habits todaysHabits).map habit.ID = habits.map habit.ID ∧
      List.Sublist ((resolve habits todaysHabits).map habit.ID) (habits.map habit.ID) := by
  have hfind : ∀ (l : List habit) (t c : habit), findCurrent l t = some c → c.ID = t.ID := by
    intro l t
    induction l with
    | nil => intro c h; simp [findCurrent] at h
    | cons a rest ih =>
      intro c h
      unfold findCurrent at h
      by_cases hc : (decide (a.ID = t.ID) && !t.isDeleted) = true
      · simp only [hc, if_true, Option.some.injEq] at h
        subst h
        simp only [Bool.and_eq_true, decide_eq_true_eq] at hc
        exact hc.1
      · simp only [hc] at h
        exact ih c h
  have heq : (resolve habits todaysHabits).map habit.ID = habits.map habit.ID := by
    rw [resolve_eq_map, List.map_map]
    apply List.map_congr_left
    intro t _
    cases hf : findCurrent todaysHabits t with
    | none => simp [hf]
    | some c => simp [hf, hfind todaysHabits t c hf]
  exact ⟨heq, heq ▸ List.Sublist.refl _⟩

/-! ## A failed save on the home screen (claim C15) -/

/-- Claim C15, evaluated on the example home screen when the commit of the
write fails: the store is unchanged and the error is added to the error
list, but the grid cell of January 2, 2024, which held the summary with no
habit done, now holds the summary with one habit done. -/
theorem saveCurrentRecord_sets_summary_before_failed_write :
    (exampleHome.saveCurrentRecord exampleStore (some "no space left on device")).2 = exampleStore ∧
      (exampleHome.saveCurrentRecord exampleStore (some "no space left on device")).1.errors.errors
        = [⟨"saving this day's habits", "no space left on device"⟩] ∧
      exampleHome.gridRows.map (fun r => r.cells.map (fun c => (c.fmtDate, c.summary.NumCompl)))
        = [[("240101", 0), ("240102", 0)]] ∧
      (exampleHome.saveCurrentRecord exampleStore (some "no space left on device")).1.gridRows.map
          (fun r => r.cells.map (fun c => (c.fmtDate, c.summary.NumCompl)))
        = [[("240101", 0), ("240102", 1)]] ∧
      (exampleHome.saveCurrentRecord exampleStore (some "no space left on device")).1.gridRows
        ≠ exampleHome.gridRows := by
  refine ⟨by rfl, by rfl, by rfl, by rfl, ?_⟩
  intro h
  have h2 := congrArg
    (fun rows : List gridRow => rows.map (fun r => r.cells.map (fun c => c.summary.NumCompl))) h
  revert h2
  decide

/-! ## Ids of the habits added on the habit screen (claim C16) -/

theorem templateReachable_ids (habits : List habit) (hr : TemplateReachable habits) :
    ∀ h ∈ habits, 1 ≤ h.ID ∧ h.ID ≤ (habits.length : Int) := by
  induction hr with
  | empty => intro h hm; simp at hm
  | submit habits now text _ ih =>
    intro h hm
    unfold submitNewItem at hm ⊢
    rw [List.mem_append, List.mem_singleton] at hm
    rw [List.length_append, List.length_singleton]
    push_cast
    rcases hm with hm | rfl
    · have := ih h hm
      omega
    · simp only
      omega

/-- Claim C16: in every template reachable from the empty one by submissions
on the habit screen, the ids are pairwise distinct, and a submission appends
one habit whose id differs from every id already in the template. -/
theorem templateReachable_ids_distinct (habits : List habit) (hr : TemplateReachable habits) :
    (habits.map habit.ID).Nodup ∧
      ∀ (now : Time) (text : String), ∃ added : habit,
        submitNewItem habits now text = habits ++ [added] ∧
        added.ID = (habits.length : Int) + 1 ∧ ∀ h ∈ habits, h.ID ≠ added.ID := by
  constructor
  · induction hr with
    | empty => simp
    | submit habits now text hprev ih =>
      unfold submitNewItem
      rw [List.map_append, List.nodup_append]
      refine ⟨ih, by simp, ?_⟩
      intro a ha hb
      simp only [List.map_cons, List.map_nil, List.mem_singleton] at hb
      obtain ⟨h, hm, rfl⟩ := List.mem_map.mp ha
      have := templateReachable_ids habits hprev h hm
      omega
  · intro now text
    refine ⟨_, rfl, rfl, ?_⟩
    intro h hm
    have := templateReachable_ids habits hr h hm
    simp only
    omega

/-- Claim C16 on a template built by two submissions. -/
theorem templateReachable_ids_distinct_example :
    ((submitNewItem (submitNewItem [] exampleNow "run") exampleLater "read").map habit.ID).Nodup ∧
      ∀ (now : Time) (text : String), ∃ added : habit,
        submitNewItem (submitNewItem (submitNewItem [] exampleNow "run") exampleLater "read") now text
          = submitNewItem (submitNewItem [] exampleNow "run") exampleLater "read" ++ [added] ∧
        added.ID = ((submitNewItem (submitNewItem [] exampleNow "run") exampleLater "read").length : Int) + 1 ∧
        ∀ h ∈ submitNewItem (submitNewItem [] exampleNow "run") exampleLater "read", h.ID ≠ added.ID :=
  templateReachable_ids_distinct _
    (TemplateReachable.submit _ _ _ (TemplateReachable.submit _ _ _ TemplateReachable.empty))

end Todaily
